import Mathlib

/-!
Verification of the schedule positioning and audit-logging engine of
`timewise-myself/timewise-dms` (file `handlers/schedule/schedule_handler.go`).

The Go handlers are shallowly embedded as pure Lean functions over an explicit
database state (`DBState`).  The GORM store is modelled as a list of rows:
`Find` with a `WHERE` clause becomes `List.filter`, `Save` (an update keyed by
primary id) becomes a map that replaces the rows with the given id, `Create`
becomes an append, and `ORDER BY position` becomes an insertion sort by the
`position` field.  Request DTOs keep the optionality of their Go pointer
fields.  Go `time.Time` values are modelled by `GoTime` (a plain
year/month/day/hour/minute/second record rendered the way Go's
`Time.String()` prints a UTC instant).
-/

/-- A calendar timestamp, modelling a Go `time.Time` that carries a UTC
instant with whole-second precision (the only form the handlers construct:
values produced by `convertDateFormat`, which parses to UTC). -/
structure GoTime where
  year : Nat
  month : Nat
  day : Nat
  hour : Nat
  minute : Nat
  second : Nat
  deriving Repr, DecidableEq

/-- Zero-pad a natural number to two digits, as Go's time formatting does. -/
def pad2 (n : Nat) : String :=
  if n < 10 then "0" ++ toString n else toString n

/-- Zero-pad a natural number to four digits, as Go's time formatting does
for the year. -/
def pad4 (n : Nat) : String :=
  if n < 10 then "000" ++ toString n
  else if n < 100 then "00" ++ toString n
  else if n < 1000 then "0" ++ toString n
  else toString n

/-- Rendering of a stored timestamp, modelling Go's `time.Time.String()` on a
UTC value with zero nanoseconds: `"2006-01-02 15:04:05 +0000 UTC"`. -/
def GoTime.render (t : GoTime) : String :=
  pad4 t.year ++ "-" ++ pad2 t.month ++ "-" ++ pad2 t.day ++ " " ++
    pad2 t.hour ++ ":" ++ pad2 t.minute ++ ":" ++ pad2 t.second ++ " +0000 UTC"

/-- The rendered form of an optional stored timestamp used by the update
handler: the empty string when the field is `NULL`, else `Time.String()`
(source lines 457-460 and 470-473). -/
def renderOptTime : Option GoTime → String
  | none => ""
  | some t => t.render

/-- Numeric value of a decimal digit character, `none` otherwise. -/
def digitVal (c : Char) : Option Nat :=
  if c.isDigit then some (c.toNat - 48) else none

/-- Two decimal digits read as a number, `none` if either is not a digit. -/
def digits2 (a b : Char) : Option Nat :=
  match digitVal a, digitVal b with
  | some x, some y => some (x * 10 + y)
  | _, _ => none

/-- The longest leading run of decimal digits of a character list, and the
remainder. -/
def spanDigits : List Char → List Char × List Char
  | [] => ([], [])
  | c :: cs =>
    if c.isDigit then
      let (ds, rest) := spanDigits cs
      (c :: ds, rest)
    else ([], c :: cs)

/-- Gregorian leap-year rule, as Go's `time.isLeap`. -/
def isLeapYear (y : Nat) : Bool :=
  y % 4 == 0 && (y % 100 != 0 || y % 400 == 0)

/-- Days of a month, as Go's `time.daysIn`. -/
def daysInMonth (y m : Nat) : Nat :=
  if m = 2 then (if isLeapYear y then 29 else 28)
  else if m = 4 ∨ m = 6 ∨ m = 9 ∨ m = 11 then 30
  else 31

/-- Go's `getnum` with `fixed = false`: one or two leading decimal digits
read as a number, with the remainder; `none` when the input does not start
with a digit. -/
def getnum2 : List Char → Option (Nat × List Char)
  | [] => none
  | a :: rest =>
    match digitVal a with
    | none => none
    | some x =>
      match rest with
      | b :: rest2 =>
        match digitVal b with
        | some y => some (x * 10 + y, rest2)
        | none => some (x, b :: rest2)
      | [] => some (x, [])

/-- Go's fractional-second step after the seconds element: when the input
continues with `'.'` or `','` followed by at least one digit, consume the
separator and the whole digit run; otherwise leave the input unchanged. -/
def dropFraction : List Char → List Char
  | c :: d :: rest =>
    if (c == '.' || c == ',') && d.isDigit then (spanDigits (d :: rest)).2
    else c :: d :: rest
  | cs => cs

/-- Go's `Z07:00` zone element at the end of the input: a single `'Z'`, or a
sign and a two-digit hour, a colon and a two-digit minute, consuming the
whole remainder (any trailing text is a parse error). -/
def parseZone : List Char → Bool
  | ['Z'] => true
  | [s, h1, h2, ':', m1, m2] =>
    (s == '+' || s == '-') && h1.isDigit && h2.isDigit &&
      m1.isDigit && m2.isDigit
  | _ => false

/-- Translated from `convertDateFormat` (source lines 379-397): parse a
date-time string as Go's `time.Parse` does with layout
`"2006-01-02T15:04:05Z07:00"`, returning the parsed civil fields, or `nil`
(here `none`) when parsing fails.  As in Go: the year, month, day, minute
and second are fixed-width digit fields, the hour may be one or two digits,
an optional fractional-second part (`'.'` or `','` plus digits) is accepted
after the seconds, the zone is `Z` or a signed `hh:mm` offset ending the
string, and the ranges are checked with the real month lengths (leap years
included).  The fractional digits and the zone offset are dropped from the
stored value; no claim observes either. -/
def convertDateFormat (dateStr : String) : Option GoTime :=
  match dateStr.data with
  | y1 :: y2 :: y3 :: y4 :: '-' :: m1 :: m2 :: '-' :: d1 :: d2 :: 'T' :: rest =>
    match digits2 y1 y2, digits2 y3 y4, digits2 m1 m2, digits2 d1 d2 with
    | some yh, some yl, some mo, some dy =>
      match getnum2 rest with
      | some (hh, ':' :: n1 :: n2 :: ':' :: s1 :: s2 :: rest2) =>
        match digits2 n1 n2, digits2 s1 s2 with
        | some mi, some ss =>
          if parseZone (dropFraction rest2) then
            if 1 ≤ mo ∧ mo ≤ 12 ∧ 1 ≤ dy ∧
                dy ≤ daysInMonth (yh * 100 + yl) mo ∧
                hh ≤ 23 ∧ mi ≤ 59 ∧ ss ≤ 59 then
              some ⟨yh * 100 + yl, mo, dy, hh, mi, ss⟩
            else none
          else none
        | _, _ => none
      | _ => none
    | _, _, _, _ => none
  | _ => none

/-- Translated from `convertToISOFormat` (source lines 372-377): replace the
first space by `'T'`, strip a trailing `".000"`, and append `"Z"`. -/
def convertToISOFormat (input : String) : String :=
  let replaced :=
    match input.splitOn " " with
    | [] => input
    | [p] => p
    | p :: rest => p ++ "T" ++ String.intercalate " " rest
  let trimmed := if replaced.endsWith ".000" then replaced.dropRight 4 else replaced
  trimmed ++ "Z"

/-- A row of the `tw_schedules` table (model `models.TwSchedule`), restricted
to the fields the schedule handlers read or write. -/
structure TwSchedule where
  id : Nat
  workspaceId : Nat
  boardColumnId : Nat
  title : String
  description : String
  startTime : Option GoTime
  endTime : Option GoTime
  location : String
  createdBy : Nat
  status : String
  allDay : Bool
  visibility : String
  extraData : String
  recurrencePattern : String
  priority : String
  videoTranscript : String
  position : Int
  isDeleted : Bool
  deletedAt : Option GoTime
  createdAt : Option GoTime
  updatedAt : Option GoTime
  deriving Repr, DecidableEq

/-- A row of the append-only `tw_schedule_logs` table (model
`models.TwScheduleLog`); unset string fields keep Go's zero value `""`. -/
structure TwScheduleLog where
  scheduleId : Nat
  workspaceUserId : Nat
  action : String
  fieldChanged : String
  oldValue : String
  newValue : String
  deriving Repr, DecidableEq

/-- The database state the schedule handlers read and write: the
`tw_schedules` table and the append-only `tw_schedule_logs` table, each as a
list of rows in table order. -/
structure DBState where
  schedules : List TwSchedule
  logs : List TwScheduleLog
  deriving Repr, DecidableEq

/-- Errors a handler reports instead of mutating: `notFound` models the 404
taken when `First` finds no row for the requested id. -/
inductive ApiError where
  | notFound
  deriving Repr, DecidableEq

/-- `DB.Where("id = ?", id).First(&schedule)`: the first row with the given
primary id, if any. -/
def findById (l : List TwSchedule) (sid : Nat) : Option TwSchedule :=
  l.find? (fun r => r.id == sid)

/-- `DB.Save(&row)` for a row that already exists: an update keyed by primary
id, replacing the stored row(s) with that id. -/
def saveById (l : List TwSchedule) (s : TwSchedule) : List TwSchedule :=
  l.map (fun r => if r.id == s.id then s else r)

/-- The query-then-save loops of the handlers: every active row of column `c`
whose position satisfies `inR` has its position shifted by `d`; all other
rows are untouched.  (The Go code first `Find`s the matching rows and then
`Save`s each with the adjusted position; with rows keyed by id this is the
same as one pass over the table.) -/
def shiftPositions (l : List TwSchedule) (c : Nat) (inR : Int → Bool) (d : Int) :
    List TwSchedule :=
  l.map (fun r =>
    if r.boardColumnId == c && !r.isDeleted && inR r.position then
      { r with position := r.position + d }
    else r)

/-- The active (`is_deleted = false`) rows of one board column, in table
order. -/
def activesIn (l : List TwSchedule) (c : Nat) : List TwSchedule :=
  l.filter (fun r => r.boardColumnId == c && !r.isDeleted)

/-- The positions held by the active rows of one board column. -/
def activePositions (l : List TwSchedule) (c : Nat) : List Int :=
  (activesIn l c).map (fun r => r.position)

/-- The number of active rows of one board column. -/
def activeCount (l : List TwSchedule) (c : Nat) : Nat :=
  (activesIn l c).length

/-- The list of positions `[1, ..., n]` as integers. -/
def denseTarget (n : Nat) : List Int :=
  (List.range n).map (fun i : Nat => (i : Int) + 1)

/-- The dense-ordering invariant I1 for one column: the positions of the
active schedules are, as a multiset, exactly `{1, ..., N}` with `N` the
active count — no duplicates, no gaps. -/
def denseCol (l : List TwSchedule) (c : Nat) : Prop :=
  List.Perm (activePositions l c) (denseTarget (activeCount l c))

instance (l : List TwSchedule) (c : Nat) : Decidable (denseCol l c) :=
  List.decidablePerm _ _

/-- The number of active rows of column `c` stored at position `k`. -/
def countPos (l : List TwSchedule) (c : Nat) (k : Int) : Nat :=
  l.countP (fun r => r.boardColumnId == c && !r.isDeleted && r.position == k)

/-- `COALESCE(MAX(position), 0)` over the active rows of a column (source
lines 643-648): `MAX` over a non-empty set of rows is the true maximum —
also when every active position is negative — and the `COALESCE` default 0
applies only when the column has no active row (`MAX` is `NULL`). -/
def maxActivePos (l : List TwSchedule) (c : Nat) : Int :=
  match activePositions l c with
  | [] => 0
  | p :: ps => ps.foldr max p

/-- `ORDER BY position ASC`: insert a row into a position-sorted list. -/
def insertByPos (r : TwSchedule) : List TwSchedule → List TwSchedule
  | [] => [r]
  | x :: xs => if r.position ≤ x.position then r :: x :: xs else x :: insertByPos r xs

/-- `ORDER BY position ASC`: sort rows ascending by their position field. -/
def sortByPos : List TwSchedule → List TwSchedule
  | [] => []
  | x :: xs => insertByPos x (sortByPos xs)

/-- Translated from the `checkAndLog` closure of `UpdateSchedule` and
`UpdateSchedulePosition` (source lines 435-446 and 580-591): append one
`"update schedule"` log row when the rendered old and new values differ. -/
def checkAndLog (sid wuid : Nat) (logs : List TwScheduleLog)
    (field oldValue newValue : String) : List TwScheduleLog :=
  if oldValue ≠ newValue then
    logs ++ [{ scheduleId := sid, workspaceUserId := wuid,
               action := "update schedule", fieldChanged := field,
               oldValue := oldValue, newValue := newValue }]
  else logs

/-- The `core_dtos.TwUpdateScheduleRequest` patch: every field is a Go
pointer, absent (`none`) when not supplied. -/
structure TwUpdateScheduleRequest where
  title : Option String := none
  description : Option String := none
  startTime : Option String := none
  endTime : Option String := none
  location : Option String := none
  status : Option String := none
  allDay : Option Bool := none
  visibility : Option String := none
  extraData : Option String := none
  recurrencePattern : Option String := none
  priority : Option String := none
  videoTranscript : Option String := none
  deriving Repr, DecidableEq

/-- The title block of `UpdateSchedule` (source lines 448-451): log the
change, then assign. -/
def updTitle (wuid : Nat) (p : TwSchedule × List TwScheduleLog)
    (v? : Option String) : TwSchedule × List TwScheduleLog :=
  match v? with
  | some v => ({ p.1 with title := v },
               checkAndLog p.1.id wuid p.2 "title" p.1.title v)
  | none => p

/-- The description block of `UpdateSchedule` (source lines 452-455). -/
def updDescription (wuid : Nat) (p : TwSchedule × List TwScheduleLog)
    (v? : Option String) : TwSchedule × List TwScheduleLog :=
  match v? with
  | some v => ({ p.1 with description := v },
               checkAndLog p.1.id wuid p.2 "description" p.1.description v)
  | none => p

/-- The start_time block of `UpdateSchedule` (source lines 456-467): the log
comparison uses the rendered stored value against the *raw* request string,
before parsing; a failed parse silently keeps the stored value. -/
def updStartTime (wuid : Nat) (p : TwSchedule × List TwScheduleLog)
    (v? : Option String) : TwSchedule × List TwScheduleLog :=
  match v? with
  | some v =>
    let logs := checkAndLog p.1.id wuid p.2 "start_time" (renderOptTime p.1.startTime) v
    match convertDateFormat v with
    | some t => ({ p.1 with startTime := some t }, logs)
    | none => (p.1, logs)
  | none => p

/-- The end_time block of `UpdateSchedule` (source lines 469-479), same shape
as the start_time block. -/
def updEndTime (wuid : Nat) (p : TwSchedule × List TwScheduleLog)
    (v? : Option String) : TwSchedule × List TwScheduleLog :=
  match v? with
  | some v =>
    let logs := checkAndLog p.1.id wuid p.2 "end_time" (renderOptTime p.1.endTime) v
    match convertDateFormat v with
    | some t => ({ p.1 with endTime := some t }, logs)
    | none => (p.1, logs)
  | none => p

/-- The location block of `UpdateSchedule` (source lines 481-484). -/
def updLocation (wuid : Nat) (p : TwSchedule × List TwScheduleLog)
    (v? : Option String) : TwSchedule × List TwScheduleLog :=
  match v? with
  | some v => ({ p.1 with location := v },
               checkAndLog p.1.id wuid p.2 "location" p.1.location v)
  | none => p

/-- The status block of `UpdateSchedule` (source lines 485-488). -/
def updStatus (wuid : Nat) (p : TwSchedule × List TwScheduleLog)
    (v? : Option String) : TwSchedule × List TwScheduleLog :=
  match v? with
  | some v => ({ p.1 with status := v },
               checkAndLog p.1.id wuid p.2 "status" p.1.status v)
  | none => p

/-- The all_day block of `UpdateSchedule` (source lines 489-492); booleans are
rendered with `strconv.FormatBool`. -/
def updAllDay (wuid : Nat) (p : TwSchedule × List TwScheduleLog)
    (v? : Option Bool) : TwSchedule × List TwScheduleLog :=
  match v? with
  | some v => ({ p.1 with allDay := v },
               checkAndLog p.1.id wuid p.2 "all_day" (toString p.1.allDay) (toString v))
  | none => p

/-- The visibility block of `UpdateSchedule` (source lines 493-496). -/
def updVisibility (wuid : Nat) (p : TwSchedule × List TwScheduleLog)
    (v? : Option String) : TwSchedule × List TwScheduleLog :=
  match v? with
  | some v => ({ p.1 with visibility := v },
               checkAndLog p.1.id wuid p.2 "visibility" p.1.visibility v)
  | none => p

/-- The extra_data block of `UpdateSchedule` (source lines 497-500). -/
def updExtraData (wuid : Nat) (p : TwSchedule × List TwScheduleLog)
    (v? : Option String) : TwSchedule × List TwScheduleLog :=
  match v? with
  | some v => ({ p.1 with extraData := v },
               checkAndLog p.1.id wuid p.2 "extra_data" p.1.extraData v)
  | none => p

/-- The recurrence_pattern block of `UpdateSchedule` (source lines 501-504). -/
def updRecurrencePattern (wuid : Nat) (p : TwSchedule × List TwScheduleLog)
    (v? : Option String) : TwSchedule × List TwScheduleLog :=
  match v? with
  | some v => ({ p.1 with recurrencePattern := v },
               checkAndLog p.1.id wuid p.2 "recurrence_pattern" p.1.recurrencePattern v)
  | none => p

/-- The priority block of `UpdateSchedule` (source lines 505-508). -/
def updPriority (wuid : Nat) (p : TwSchedule × List TwScheduleLog)
    (v? : Option String) : TwSchedule × List TwScheduleLog :=
  match v? with
  | some v => ({ p.1 with priority := v },
               checkAndLog p.1.id wuid p.2 "priority" p.1.priority v)
  | none => p

/-- The video_transcript block of `UpdateSchedule` (source lines 509-512). -/
def updVideoTranscript (wuid : Nat) (p : TwSchedule × List TwScheduleLog)
    (v? : Option String) : TwSchedule × List TwScheduleLog :=
  match v? with
  | some v => ({ p.1 with videoTranscript := v },
               checkAndLog p.1.id wuid p.2 "video_transcript" p.1.videoTranscript v)
  | none => p

/-- Translated from `UpdateSchedule` (source lines 409-554): load the row by
id (404 when absent), run the twelve per-field blocks in source order, then
unconditionally set `CreatedBy` to the acting workspace user (source line
513), refresh `UpdatedAt`, save the row, and append the accumulated log
rows. -/
def updateSchedule (db : DBState) (sid wuid : Nat)
    (req : TwUpdateScheduleRequest) (now : GoTime) :
    Except ApiError (DBState × TwSchedule) :=
  match findById db.schedules sid with
  | none => .error .notFound
  | some schedule =>
    let p := updTitle wuid (schedule, []) req.title
    let p := updDescription wuid p req.description
    let p := updStartTime wuid p req.startTime
    let p := updEndTime wuid p req.endTime
    let p := updLocation wuid p req.location
    let p := updStatus wuid p req.status
    let p := updAllDay wuid p req.allDay
    let p := updVisibility wuid p req.visibility
    let p := updExtraData wuid p req.extraData
    let p := updRecurrencePattern wuid p req.recurrencePattern
    let p := updPriority wuid p req.priority
    let p := updVideoTranscript wuid p req.videoTranscript
    let s : TwSchedule := { p.1 with createdBy := wuid, updatedAt := some now }
    .ok ({ schedules := saveById db.schedules s, logs := db.logs ++ p.2 }, s)

/-- The `core_dtos.TwUpdateSchedulePosition` request body.  In the source
both fields are pointers, but `Position` is dereferenced unconditionally
whenever `BoardColumnID` is non-nil (source lines 595, 608, 622, ...), so the
model carries it as a plain value. -/
structure TwUpdateSchedulePosition where
  boardColumnId : Option Nat := none
  position : Int := 0
  deriving Repr, DecidableEq

/-- The shared epilogue of `UpdateSchedulePosition` (source lines 666-680):
refresh `UpdatedAt`, save the (possibly re-positioned, re-columned) row into
the shifted table, and append the accumulated log batch. -/
def applyMoveResult (db : DBState) (tbl : List TwSchedule) (s : TwSchedule)
    (logs : List TwScheduleLog) (now : GoTime) : DBState × TwSchedule :=
  ({ schedules := saveById tbl { s with updatedAt := some now },
     logs := db.logs ++ logs },
   { s with updatedAt := some now })

/-- Translated from `UpdateSchedulePosition` (source lines 556-704).  When
the request names the schedule's own column, active siblings between the old
and requested position shift toward the old slot and the schedule takes the
requested position (no validation of the requested range is performed).
When it names another column, the source column's trailing actives close the
gap; then, if the target column has an active row at or past the requested
position, those rows shift up and the schedule takes the requested position,
otherwise it is appended at `COALESCE(MAX(position), 0) + 1`.  Log rows for
`position` and `board_column_id` are emitted when the rendered values
differ; each branch finishes with the `applyMoveResult` epilogue. -/
def updateSchedulePosition (db : DBState) (sid wuid : Nat)
    (req : TwUpdateSchedulePosition) (now : GoTime) :
    Except ApiError (DBState × TwSchedule) :=
  match findById db.schedules sid with
  | none => .error .notFound
  | some schedule =>
    match req.boardColumnId with
    | none => .ok (applyMoveResult db db.schedules schedule [] now)
    | some bcid =>
      if bcid = schedule.boardColumnId then
        let tbl :=
          if req.position < schedule.position then
            shiftPositions db.schedules schedule.boardColumnId
              (fun p => decide (p < schedule.position) && decide (req.position ≤ p)) 1
          else if req.position > schedule.position then
            shiftPositions db.schedules schedule.boardColumnId
              (fun p => decide (schedule.position < p) && decide (p ≤ req.position)) (-1)
          else db.schedules
        let logs := checkAndLog schedule.id wuid [] "position"
          (toString schedule.position) (toString req.position)
        let logs := checkAndLog schedule.id wuid logs "board_column_id"
          (toString schedule.boardColumnId) (toString bcid)
        .ok (applyMoveResult db tbl
          { schedule with position := req.position, boardColumnId := bcid } logs now)
      else
        let tbl1 := shiftPositions db.schedules schedule.boardColumnId
          (fun p => decide (schedule.position < p)) (-1)
        let targets := tbl1.filter (fun r =>
          r.boardColumnId == bcid && decide (req.position ≤ r.position) && !r.isDeleted)
        if targets.isEmpty then
          let maxPosition := maxActivePos tbl1 bcid
          let logs := checkAndLog schedule.id wuid [] "position"
            (toString schedule.position) (toString req.position)
          let logs := checkAndLog schedule.id wuid logs "board_column_id"
            (toString schedule.boardColumnId) (toString bcid)
          .ok (applyMoveResult db tbl1
            { schedule with position := maxPosition + 1, boardColumnId := bcid } logs now)
        else
          let tbl2 := shiftPositions tbl1 bcid
            (fun p => decide (req.position ≤ p)) 1
          let logs := checkAndLog schedule.id wuid [] "position"
            (toString schedule.position) (toString req.position)
          let logs := checkAndLog schedule.id wuid logs "board_column_id"
            (toString schedule.boardColumnId) (toString bcid)
          .ok (applyMoveResult db tbl2
            { schedule with position := req.position, boardColumnId := bcid } logs now)

/-- Translated from `DeleteSchedule` (source lines 715-765): load the row by
id (404 when absent), mark it deleted with `DeletedAt`/`UpdatedAt` set and
save it, decrement every active sibling of the same column past the frozen
position, and append one `"delete schedule"` log row.  The deleted row's own
position is not touched. -/
def deleteSchedule (db : DBState) (sid wuid : Nat) (now : GoTime) :
    Except ApiError DBState :=
  match findById db.schedules sid with
  | none => .error .notFound
  | some schedule =>
    let s : TwSchedule := { schedule with
      isDeleted := true, updatedAt := some now, deletedAt := some now }
    let tbl1 := saveById db.schedules s
    let tbl2 := shiftPositions tbl1 schedule.boardColumnId
      (fun p => decide (schedule.position < p)) (-1)
    let log : TwScheduleLog := { scheduleId := schedule.id,
                                 workspaceUserId := wuid,
                                 action := "delete schedule", fieldChanged := "",
                                 oldValue := "", newValue := "" }
    .ok { schedules := tbl2, logs := db.logs ++ [log] }

/-- `DeleteSchedule` when the store fails while persisting the
`(failIdx + 1)`-th row of the sibling compaction loop (source lines
747-752): the handler returns a 500 immediately, but the primary save and the
first `failIdx` sibling saves were already issued as independent statements,
so they remain in the database; the loop walks the siblings in
`ORDER BY position ASC` order.  The result is the state a caller re-reads
after the failure. -/
def deleteScheduleFaulty (db : DBState) (sid wuid : Nat) (now : GoTime)
    (failIdx : Nat) : DBState :=
  match findById db.schedules sid with
  | none => db
  | some schedule =>
    let s : TwSchedule := { schedule with
      isDeleted := true, updatedAt := some now, deletedAt := some now }
    let tbl1 := saveById db.schedules s
    let sibs := sortByPos (tbl1.filter (fun r =>
      r.boardColumnId == schedule.boardColumnId &&
        decide (schedule.position < r.position) && !r.isDeleted))
    let tbl2 := (sibs.take failIdx).foldl
      (fun tbl r => saveById tbl { r with position := r.position - 1 }) tbl1
    { schedules := tbl2, logs := db.logs }

/-- Translated from the exported `GetSchedulesByBoardColumn` (source lines
767-786): `WHERE board_column_id = ?` only — no deletion filter and no
ordering clause, so rows come back in table order, deleted rows included. -/
def GetSchedulesByBoardColumn (db : DBState) (boardColumnID : Nat) :
    List TwSchedule :=
  db.schedules.filter (fun r => r.boardColumnId == boardColumnID)

/-- Translated from the unexported `getSchedulesByBoardColumn` (source lines
809-831): `WHERE board_column_id = ? AND workspace_id = ? AND is_deleted =
false ORDER BY position`. -/
def getSchedulesByBoardColumn (db : DBState) (boardColumnID workspaceID : Nat) :
    List TwSchedule :=
  sortByPos (db.schedules.filter (fun r =>
    r.boardColumnId == boardColumnID && r.workspaceId == workspaceID &&
      r.isDeleted == false))

/-- The `core_dtos.TwCreateScheduleRequest` body; the fields the handler
dereferences unconditionally are carried as plain values, the optional time
strings keep their pointer optionality. -/
structure TwCreateScheduleRequest where
  workspaceId : Nat
  boardColumnId : Nat
  workspaceUserId : Nat
  title : String
  description : String
  startTime : Option String := none
  endTime : Option String := none
  deriving Repr, DecidableEq

/-- Translated from `CreateSchedule` (source lines 282-370): count the
active rows of the target column, insert the new row at position count + 1
with the source's defaults (`status "not yet"`, `visibility "public"`,
`StartTime now`, `EndTime now + 1h`), overriding the times when the request
supplies parsable strings, and append one `"create schedule"` log row.  The
auto-increment id is passed in as `nextId`, and `now` / `endDefault`
(`now.Add(time.Hour)`) are passed as parameters; the creator
`tw_schedule_participants` row is a side table no claim touches and is not
modelled. -/
def createSchedule (db : DBState) (req : TwCreateScheduleRequest)
    (nextId : Nat) (now endDefault : GoTime) : DBState × TwSchedule :=
  let existingSchedules := db.schedules.filter (fun r =>
    r.boardColumnId == req.boardColumnId && r.isDeleted == false)
  let st : Option GoTime :=
    match req.startTime with
    | some ts =>
      match convertDateFormat (convertToISOFormat ts) with
      | some t => some t
      | none => some now
    | none => some now
  let et : Option GoTime :=
    match req.endTime with
    | some ts =>
      match convertDateFormat (convertToISOFormat ts) with
      | some t => some t
      | none => some endDefault
    | none => some endDefault
  let s : TwSchedule := {
    id := nextId, workspaceId := req.workspaceId,
    boardColumnId := req.boardColumnId,
    title := req.title, description := req.description,
    startTime := st, endTime := et,
    location := "", createdBy := req.workspaceUserId, status := "not yet",
    allDay := false, visibility := "public", extraData := "",
    recurrencePattern := "", priority := "", videoTranscript := "",
    position := (existingSchedules.length : Int) + 1,
    isDeleted := false, deletedAt := none,
    createdAt := some now, updatedAt := some now }
  let log : TwScheduleLog := { scheduleId := nextId,
                               workspaceUserId := req.workspaceUserId,
                               action := "create schedule",
                               fieldChanged := "", oldValue := "", newValue := "" }
  ({ schedules := db.schedules ++ [s], logs := db.logs ++ [log] }, s)

/-- One mutating operation of the engine, with the ambient data (fresh id,
clock readings) it consumes. -/
inductive Op where
  | create (req : TwCreateScheduleRequest) (nextId : Nat) (now endDefault : GoTime)
  | move (sid wuid : Nat) (req : TwUpdateSchedulePosition) (now : GoTime)
  | delete (sid wuid : Nat) (now : GoTime)
  deriving Repr

/-- Run one operation against the database; a handler that reports an error
before mutating leaves the state unchanged. -/
def applyOp (db : DBState) : Op → DBState
  | .create req nextId now endDefault => (createSchedule db req nextId now endDefault).1
  | .move sid wuid req now =>
    match updateSchedulePosition db sid wuid req now with
    | .ok (db', _) => db'
    | .error _ => db
  | .delete sid wuid now =>
    match deleteSchedule db sid wuid now with
    | .ok db' => db'
    | .error _ => db

/-- Run a sequence of operations in order. -/
def runOps (db : DBState) (ops : List Op) : DBState :=
  ops.foldl applyOp db

/-- The operation preconditions of the specification: a create uses a fresh
primary id; a move or delete that resolves its id targets an active row; an
intra-column move requests a position within `[1, N]` (`N` the column's
active count) and a cross-column move a positive target position. -/
def ValidOp (db : DBState) : Op → Prop
  | .create _ nextId _ _ => ∀ r ∈ db.schedules, r.id ≠ nextId
  | .move sid _ req _ =>
    ∀ s, findById db.schedules sid = some s →
      s.isDeleted = false ∧
      ∀ bcid, req.boardColumnId = some bcid →
        (bcid = s.boardColumnId →
          1 ≤ req.position ∧
            req.position ≤ (activeCount db.schedules s.boardColumnId : Int)) ∧
        (bcid ≠ s.boardColumnId → 1 ≤ req.position)
  | .delete sid _ _ =>
    ∀ s, findById db.schedules sid = some s → s.isDeleted = false

/-- Every operation of the sequence satisfies its precondition in the state
it actually runs in. -/
def SeqValid : DBState → List Op → Prop
  | _, [] => True
  | db, op :: rest => ValidOp db op ∧ SeqValid (applyOp db op) rest

/-- Well-formedness of the store: primary ids are unique and every column
satisfies the dense-ordering invariant. -/
def WFState (db : DBState) : Prop :=
  (db.schedules.map (fun r => r.id)).Nodup ∧ ∀ c, denseCol db.schedules c

/-- The dense invariant in counting form: each position `k` is held by
exactly one active row when `1 ≤ k ≤ N` and by none otherwise. -/
def DenseCount (l : List TwSchedule) (c : Nat) : Prop :=
  ∀ k : Int, countPos l c k =
    if 1 ≤ k ∧ k ≤ (activeCount l c : Int) then 1 else 0

/-- A concrete schedule row used by the examples: primary id `id`, column
`bc`, position `pos`, deletion flag `del`, all free-text fields at their Go
zero values and the creator recorded as user 42. -/
def mkRow (id bc : Nat) (pos : Int) (del : Bool) : TwSchedule :=
  { id := id, workspaceId := 1, boardColumnId := bc, title := "",
    description := "", startTime := none, endTime := none, location := "",
    createdBy := 42, status := "not yet", allDay := false,
    visibility := "public", extraData := "", recurrencePattern := "",
    priority := "", videoTranscript := "", position := pos, isDeleted := del,
    deletedAt := none, createdAt := none, updatedAt := none }

/-- A fixed clock reading used by the examples. -/
def t0 : GoTime := ⟨2024, 1, 2, 3, 4, 5⟩

/-- Example store: column 1 with three active schedules at positions
1, 2, 3. -/
def exDb : DBState :=
  { schedules := [mkRow 1 1 1 false, mkRow 2 1 2 false, mkRow 3 1 3 false],
    logs := [] }

/-- Example store holding a single active schedule at position 1 of
column 1. -/
def oneRowDb : DBState :=
  { schedules := [mkRow 1 1 1 false], logs := [] }

/-- The empty store. -/
def emptyDb : DBState := { schedules := [], logs := [] }

/-- Example store with two columns holding one active schedule each. -/
def twoColDb : DBState :=
  { schedules := [mkRow 1 1 1 false, mkRow 2 2 1 false], logs := [] }

/-- Example store whose column 1 holds an active schedule at position 2
ahead of a deleted one at position 1, in that table order. -/
def mixedDb : DBState :=
  { schedules := [mkRow 1 1 2 false, mkRow 2 1 1 true], logs := [] }

/-- Example store holding one schedule whose start time is already `t0`. -/
def timedDb : DBState :=
  { schedules := [{ mkRow 1 1 1 false with startTime := some t0 }],
    logs := [] }

/-- Example create request. -/
def exCreateReq : TwCreateScheduleRequest :=
  { workspaceId := 1, boardColumnId := 1, workspaceUserId := 7,
    title := "t", description := "" }

/-- Example operation sequence: one create into the empty store. -/
def exOps : List Op := [Op.create exCreateReq 1 t0 t0]

/-- The moved schedule's resulting position of a position-move call, when
the call succeeded. -/
def moveResultPos (e : Except ApiError (DBState × TwSchedule)) : Option Int :=
  match e with
  | .ok (_, s) => some s.position
  | .error _ => none

/-- The log table after an update call, when the call succeeded (empty on
error). -/
def updLogsOf (e : Except ApiError (DBState × TwSchedule)) :
    List TwScheduleLog :=
  match e with
  | .ok (db, _) => db.logs
  | .error _ => []

/-- The row an update call returned, when the call succeeded. -/
def updSchedOf (e : Except ApiError (DBState × TwSchedule)) :
    Option TwSchedule :=
  match e with
  | .ok (_, s) => some s
  | .error _ => none

def rowInd (x : TwSchedule) (c : Nat) (k : Int) : Nat :=
  if x.boardColumnId = c ∧ x.isDeleted = false ∧ x.position = k then 1 else 0

/-- The active-row indicator of a single row for column `c`. -/
def activeInd (x : TwSchedule) (c : Nat) : Nat :=
  if x.boardColumnId = c ∧ x.isDeleted = false then 1 else 0

/-- Row-level description of an intra-column move: the moved row takes the
requested position, active siblings between the requested and the old
position shift toward the old slot, everything else is untouched
(source lines 593-623). -/
def intraMoveRow (sid : Nat) (sched : TwSchedule) (reqPos : Int) (now : GoTime)
    (r : TwSchedule) : TwSchedule :=
  if r.id = sid then
    { sched with position := reqPos, updatedAt := some now }
  else if r.boardColumnId = sched.boardColumnId ∧ r.isDeleted = false ∧
      reqPos ≤ r.position ∧ r.position < sched.position then
    { r with position := r.position + 1 }
  else if r.boardColumnId = sched.boardColumnId ∧ r.isDeleted = false ∧
      sched.position < r.position ∧ r.position ≤ reqPos then
    { r with position := r.position - 1 }
  else r

/-- Row-level description of a cross-column move that inserts mid-column:
the moved row takes the requested position in the target column, trailing
actives of the source column close the gap, actives of the target column at
or past the requested position open the slot (source lines 624-663). -/
def crossMoveRowIns (sid : Nat) (sched : TwSchedule) (bcid : Nat) (reqPos : Int)
    (now : GoTime) (r : TwSchedule) : TwSchedule :=
  if r.id = sid then
    { sched with position := reqPos, boardColumnId := bcid, updatedAt := some now }
  else if r.boardColumnId = sched.boardColumnId ∧ r.isDeleted = false ∧
      sched.position < r.position then
    { r with position := r.position - 1 }
  else if r.boardColumnId = bcid ∧ r.isDeleted = false ∧ reqPos ≤ r.position then
    { r with position := r.position + 1 }
  else r

/-- Row-level description of a cross-column move that appends at the end of
the target column: the moved row takes `newPos`, trailing actives of the
source column close the gap, the target column is untouched (source lines
642-650). -/
def crossMoveRowApp (sid : Nat) (sched : TwSchedule) (bcid : Nat) (newPos : Int)
    (now : GoTime) (r : TwSchedule) : TwSchedule :=
  if r.id = sid then
    { sched with position := newPos, boardColumnId := bcid, updatedAt := some now }
  else if r.boardColumnId = sched.boardColumnId ∧ r.isDeleted = false ∧
      sched.position < r.position then
    { r with position := r.position - 1 }
  else r

/-- Row-level description of a soft delete: the target row is marked deleted
with its position frozen, active siblings of its column past its position
close the gap, everything else is untouched (source lines 715-765). -/
def deleteRow (sid : Nat) (sched : TwSchedule) (now : GoTime)
    (r : TwSchedule) : TwSchedule :=
  if r.id = sid then
    { sched with isDeleted := true, updatedAt := some now, deletedAt := some now }
  else if r.boardColumnId = sched.boardColumnId ∧ r.isDeleted = false ∧
      sched.position < r.position then
    { r with position := r.position - 1 }
  else r

/-- The single log row `checkAndLog` appends when the rendered values
differ, as a standalone batch. -/
def logDelta (sid wuid : Nat) (field oldV newV : String) : List TwScheduleLog :=
  if oldV ≠ newV then
    [{ scheduleId := sid, workspaceUserId := wuid, action := "update schedule",
       fieldChanged := field, oldValue := oldV, newValue := newV }]
  else []

/-- Log batch of one string-valued field block of `UpdateSchedule`: one row
when the field is patched and differs, nothing otherwise. -/
def strLogDelta (sid wuid : Nat) (field cur : String) (v? : Option String) :
    List TwScheduleLog :=
  match v? with
  | some v => logDelta sid wuid field cur v
  | none => []

/-- Log batch of the all_day block: values rendered with
`strconv.FormatBool`. -/
def boolLogDelta (sid wuid : Nat) (field : String) (cur : Bool)
    (v? : Option Bool) : List TwScheduleLog :=
  match v? with
  | some v => logDelta sid wuid field (toString cur) (toString v)
  | none => []

/-- Log batch of a timestamp block of `UpdateSchedule`: the stored value is
rendered with `Time.String()` (empty when `NULL`) and compared against the
*raw* request string. -/
def timeLogDelta (sid wuid : Nat) (field : String) (cur : Option GoTime)
    (v? : Option String) : List TwScheduleLog :=
  match v? with
  | some v => logDelta sid wuid field (renderOptTime cur) v
  | none => []

/-- The stored timestamp after a timestamp block: the parsed request string
when it parses, the prior value otherwise (also when the field is absent). -/
def newTimeField (cur : Option GoTime) (v? : Option String) : Option GoTime :=
  match v? with
  | some v =>
    match convertDateFormat v with
    | some t => some t
    | none => cur
  | none => cur

/-- The row `UpdateSchedule` saves: each patched field applied, timestamps
kept on parse failure, `created_by` overwritten with the acting user (source
line 513) and `updated_at` refreshed. -/
def applyPatch (sched : TwSchedule) (req : TwUpdateScheduleRequest)
    (wuid : Nat) (now : GoTime) : TwSchedule :=
  { sched with
    title := req.title.getD sched.title,
    description := req.description.getD sched.description,
    startTime := newTimeField sched.startTime req.startTime,
    endTime := newTimeField sched.endTime req.endTime,
    location := req.location.getD sched.location,
    status := req.status.getD sched.status,
    allDay := req.allDay.getD sched.allDay,
    visibility := req.visibility.getD sched.visibility,
    extraData := req.extraData.getD sched.extraData,
    recurrencePattern := req.recurrencePattern.getD sched.recurrencePattern,
    priority := req.priority.getD sched.priority,
    videoTranscript := req.videoTranscript.getD sched.videoTranscript,
    createdBy := wuid,
    updatedAt := some now }

/-- The full log batch of one `UpdateSchedule` call, in source field order. -/
def updateLogs (sched : TwSchedule) (req : TwUpdateScheduleRequest)
    (wuid : Nat) : List TwScheduleLog :=
  strLogDelta sched.id wuid "title" sched.title req.title ++
  strLogDelta sched.id wuid "description" sched.description req.description ++
  timeLogDelta sched.id wuid "start_time" sched.startTime req.startTime ++
  timeLogDelta sched.id wuid "end_time" sched.endTime req.endTime ++
  strLogDelta sched.id wuid "location" sched.location req.location ++
  strLogDelta sched.id wuid "status" sched.status req.status ++
  boolLogDelta sched.id wuid "all_day" sched.allDay req.allDay ++
  strLogDelta sched.id wuid "visibility" sched.visibility req.visibility ++
  strLogDelta sched.id wuid "extra_data" sched.extraData req.extraData ++
  strLogDelta sched.id wuid "recurrence_pattern" sched.recurrencePattern
    req.recurrencePattern ++
  strLogDelta sched.id wuid "priority" sched.priority req.priority ++
  strLogDelta sched.id wuid "video_transcript" sched.videoTranscript
    req.videoTranscript

lemma countPos_eq_count (l : List TwSchedule) (c : Nat) (k : Int) :
    countPos l c k = (activePositions l c).count k := by
  unfold countPos activePositions activesIn
  rw [List.count, List.countP_map, List.countP_filter]
  apply List.countP_congr
  intro r _
  cases hb : r.boardColumnId == c <;> cases hd : r.isDeleted <;>
    cases hp : r.position == k <;> simp_all [Function.comp]

lemma count_denseTarget (n : Nat) (k : Int) :
    (denseTarget n).count k = if 1 ≤ k ∧ k ≤ (n : Int) then 1 else 0 := by
  induction n with
  | zero =>
    simp only [denseTarget, List.range_zero, List.map_nil, List.count_nil,
      Nat.cast_zero]
    rw [if_neg (by omega)]
  | succ n ih =>
    unfold denseTarget at ih ⊢
    rw [List.range_succ, List.map_append, List.count_append, ih]
    simp only [List.map_cons, List.map_nil, List.count_cons, List.count_nil,
      List.count_singleton, beq_iff_eq, Nat.cast_succ]
    by_cases hk : (n : Int) + 1 = k
    · rw [if_pos hk, if_neg (by omega), if_pos (by omega)]
    · rw [if_neg hk]
      by_cases h4 : 1 ≤ k ∧ k ≤ (n : Int)
      · rw [if_pos h4, if_pos (by omega)]
      · rw [if_neg h4, if_neg (by omega)]

lemma denseCol_iff_denseCount (l : List TwSchedule) (c : Nat) :
    denseCol l c ↔ DenseCount l c := by
  unfold denseCol DenseCount
  rw [List.perm_iff_count]
  constructor
  · intro h k
    rw [countPos_eq_count, h k, count_denseTarget]
  · intro h k
    rw [← countPos_eq_count, h k, count_denseTarget]

lemma countPos_nil (c : Nat) (k : Int) : countPos [] c k = 0 := rfl

lemma countPos_cons (r : TwSchedule) (l : List TwSchedule) (c : Nat) (k : Int) :
    countPos (r :: l) c k = countPos l c k + rowInd r c k := by
  unfold countPos rowInd
  rw [List.countP_cons]
  congr 1
  by_cases h1 : r.boardColumnId = c <;> by_cases h2 : r.isDeleted <;>
    by_cases h3 : r.position = k <;> simp [h1, h2, h3]

lemma countPos_append (l₁ l₂ : List TwSchedule) (c : Nat) (k : Int) :
    countPos (l₁ ++ l₂) c k = countPos l₁ c k + countPos l₂ c k := by
  unfold countPos
  exact List.countP_append _ _ _

lemma activesIn_shiftPositions (l : List TwSchedule) (c₀ : Nat)
    (inR : Int → Bool) (d : Int) (c : Nat) :
    activesIn (shiftPositions l c₀ inR d) c =
      (activesIn l c).map (fun r =>
        if r.boardColumnId == c₀ && !r.isDeleted && inR r.position then
          { r with position := r.position + d }
        else r) := by
  induction l with
  | nil => rfl
  | cons r t ih =>
    simp only [shiftPositions, List.map_cons, activesIn, List.filter_cons] at ih ⊢
    by_cases hb : (r.boardColumnId == c₀ && !r.isDeleted && inR r.position) = true
    · rw [if_pos hb]
      by_cases hq : (r.boardColumnId == c && !r.isDeleted) = true
      · have hq' : (({ r with position := r.position + d } :
            TwSchedule).boardColumnId == c && !({ r with position := r.position + d } :
            TwSchedule).isDeleted) = true := hq
        rw [if_pos hq', if_pos hq, List.map_cons]
        rw [if_pos hb]
        exact congrArg _ ih
      · have hq' : ¬ (({ r with position := r.position + d } :
            TwSchedule).boardColumnId == c && !({ r with position := r.position + d } :
            TwSchedule).isDeleted) = true := hq
        rw [if_neg hq', if_neg hq]
        exact ih
    · rw [if_neg hb]
      by_cases hq : (r.boardColumnId == c && !r.isDeleted) = true
      · rw [if_pos hq, if_pos hq, List.map_cons, if_neg hb]
        exact congrArg _ ih
      · rw [if_neg hq, if_neg hq]
        exact ih

lemma activePositions_shiftPositions (l : List TwSchedule) (c₀ : Nat)
    (inR : Int → Bool) (d : Int) (c : Nat) :
    activePositions (shiftPositions l c₀ inR d) c =
      if c = c₀ then
        (activePositions l c).map (fun p => if inR p = true then p + d else p)
      else activePositions l c := by
  unfold activePositions
  rw [activesIn_shiftPositions, List.map_map]
  by_cases hc : c = c₀
  · subst hc
    rw [if_pos rfl, List.map_map]
    apply List.map_congr_left
    intro r hr
    have hprop' := List.of_mem_filter hr
    simp only [Bool.and_eq_true, beq_iff_eq, Bool.not_eq_true'] at hprop'
    simp only [Function.comp]
    by_cases hi : inR r.position = true
    · rw [if_pos, if_pos hi]
      simp only [Bool.and_eq_true, beq_iff_eq, Bool.not_eq_true']
      exact ⟨⟨hprop'.1, hprop'.2⟩, hi⟩
    · rw [if_neg, if_neg hi]
      simp only [Bool.and_eq_true, beq_iff_eq, Bool.not_eq_true']
      intro hcontra
      exact hi hcontra.2
  · rw [if_neg hc]
    apply List.map_congr_left
    intro r hr
    have hprop' := List.of_mem_filter hr
    simp only [Bool.and_eq_true, beq_iff_eq, Bool.not_eq_true'] at hprop'
    simp only [Function.comp]
    rw [if_neg]
    simp only [Bool.and_eq_true, beq_iff_eq, Bool.not_eq_true']
    intro hcontra
    exact hc (hprop'.1.symm.trans hcontra.1.1)

lemma activeCount_shiftPositions (l : List TwSchedule) (c₀ : Nat)
    (inR : Int → Bool) (d : Int) (c : Nat) :
    activeCount (shiftPositions l c₀ inR d) c = activeCount l c := by
  unfold activeCount
  rw [activesIn_shiftPositions, List.length_map]

lemma count_map_shiftFun (ps : List Int) (inR : Int → Bool) (d k : Int) :
    (ps.map (fun p => if inR p = true then p + d else p)).count k =
      (if inR (k - d) = true then ps.count (k - d) else 0) +
      (if inR k = true then 0 else ps.count k) := by
  induction ps with
  | nil => simp
  | cons p t ih =>
    simp only [List.map_cons, List.count_cons, ih, beq_iff_eq]
    clear ih
    by_cases hp : inR p = true
    · rw [if_pos hp]
      by_cases hpk : p + d = k
      · have hkd : k - d = p := by omega
        have h1 : inR (k - d) = true := by rw [hkd]; exact hp
        rw [if_pos hpk, if_pos h1, if_pos h1, if_pos hkd.symm]
        by_cases h2 : inR k = true
        · rw [if_pos h2, if_pos h2]
        · rw [if_neg h2, if_neg h2]
          rw [if_neg (fun he : p = k => h2 (he ▸ hp))]
          omega
      · rw [if_neg hpk]
        by_cases h1 : inR (k - d) = true
        · rw [if_pos h1, if_pos h1]
          rw [if_neg (fun he : p = k - d => hpk (by omega))]
          by_cases h2 : inR k = true
          · rw [if_pos h2, if_pos h2]
          · rw [if_neg h2, if_neg h2]
            rw [if_neg (fun he : p = k => h2 (he ▸ hp))]
            omega
        · rw [if_neg h1, if_neg h1]
          by_cases h2 : inR k = true
          · rw [if_pos h2, if_pos h2]
          · rw [if_neg h2, if_neg h2]
            rw [if_neg (fun he : p = k => h2 (he ▸ hp))]
            omega
    · rw [if_neg hp]
      by_cases hkp : p = k
      · have h2 : ¬ (inR k = true) := fun h => hp (hkp.symm ▸ h)
        rw [if_pos hkp, if_neg h2, if_neg h2]
        by_cases h1 : inR (k - d) = true
        · rw [if_pos h1, if_pos h1]
          rw [if_neg (fun he : p = k - d => hp (he.symm ▸ h1))]
          omega
        · rw [if_neg h1, if_neg h1]
          omega
      · rw [if_neg hkp]
        by_cases h1 : inR (k - d) = true
        · rw [if_pos h1, if_pos h1]
          rw [if_neg (fun he : p = k - d => hp (he.symm ▸ h1))]
          by_cases h2 : inR k = true
          · rw [if_pos h2, if_pos h2]
          · rw [if_neg h2, if_neg h2]
            omega
        · rw [if_neg h1, if_neg h1]
          by_cases h2 : inR k = true
          · rw [if_pos h2, if_pos h2]
          · rw [if_neg h2, if_neg h2]
            omega

lemma countPos_shiftPositions (l : List TwSchedule) (c₀ : Nat) (inR : Int → Bool)
    (d : Int) (c : Nat) (k : Int) :
    countPos (shiftPositions l c₀ inR d) c k =
      (if c = c₀ ∧ inR (k - d) = true then countPos l c (k - d) else 0) +
      (if c = c₀ ∧ inR k = true then 0 else countPos l c k) := by
  rw [countPos_eq_count, activePositions_shiftPositions]
  by_cases hc : c = c₀
  · rw [if_pos hc, count_map_shiftFun, ← countPos_eq_count, ← countPos_eq_count]
    by_cases h1 : inR (k - d) = true <;> by_cases h2 : inR k = true <;>
      simp [hc, h1, h2]
  · rw [if_neg hc, ← countPos_eq_count]
    rw [if_neg (fun h => hc h.1), if_neg (fun h => hc h.1)]
    omega

lemma activesIn_append (l₁ l₂ : List TwSchedule) (c : Nat) :
    activesIn (l₁ ++ l₂) c = activesIn l₁ c ++ activesIn l₂ c := by
  unfold activesIn
  exact List.filter_append _ _

lemma activeCount_append (l₁ l₂ : List TwSchedule) (c : Nat) :
    activeCount (l₁ ++ l₂) c = activeCount l₁ c + activeCount l₂ c := by
  unfold activeCount
  rw [activesIn_append, List.length_append]

lemma activeCount_cons (r : TwSchedule) (l : List TwSchedule) (c : Nat) :
    activeCount (r :: l) c = activeInd r c + activeCount l c := by
  unfold activeCount activesIn activeInd
  rw [List.filter_cons]
  by_cases h1 : r.boardColumnId = c <;> by_cases h2 : r.isDeleted <;>
    simp [h1, h2] <;> omega

lemma rowInd_eq (x : TwSchedule) (c : Nat) (k : Int) :
    rowInd x c k = if x.boardColumnId = c ∧ x.isDeleted = false ∧ x.position = k
      then 1 else 0 := rfl

lemma findById_decomp {l : List TwSchedule} {sid : Nat} {r : TwSchedule}
    (h : findById l sid = some r) :
    ∃ l₁ l₂, l = l₁ ++ r :: l₂ ∧ (∀ x ∈ l₁, x.id ≠ sid) ∧ r.id = sid := by
  induction l with
  | nil => simp [findById] at h
  | cons a t ih =>
    unfold findById at h
    by_cases ha : (a.id == sid) = true
    · have hfind : List.find? (fun x => x.id == sid) (a :: t) = some a :=
        List.find?_cons_of_pos t ha
      rw [hfind] at h
      injection h with h'
      subst h'
      refine ⟨[], t, rfl, ?_, eq_of_beq ha⟩
      intro x hx
      simp at hx
    · have hfind : List.find? (fun x => x.id == sid) (a :: t) =
          List.find? (fun x => x.id == sid) t :=
        List.find?_cons_of_neg t ha
      rw [hfind] at h
      obtain ⟨l₁, l₂, hdec, hl₁, hr⟩ := ih h
      refine ⟨a :: l₁, l₂, by rw [hdec]; rfl, ?_, hr⟩
      intro x hx
      rcases List.mem_cons.mp hx with he | hm
      · subst he
        exact fun hc => ha (by simp [hc])
      · exact hl₁ x hm

lemma saveById_eq_of_absent {l : List TwSchedule} {s : TwSchedule}
    (h : ∀ x ∈ l, x.id ≠ s.id) : saveById l s = l := by
  induction l with
  | nil => rfl
  | cons a t ih =>
    unfold saveById
    rw [List.map_cons]
    rw [if_neg (by simpa using h a (List.mem_cons_self a t))]
    have := ih (fun x hx => h x (List.mem_cons_of_mem a hx))
    unfold saveById at this
    rw [this]

lemma saveById_decomp (l₁ l₂ : List TwSchedule) (r s : TwSchedule)
    (hl₁ : ∀ x ∈ l₁, x.id ≠ s.id) (hl₂ : ∀ x ∈ l₂, x.id ≠ s.id)
    (hr : r.id = s.id) :
    saveById (l₁ ++ r :: l₂) s = l₁ ++ s :: l₂ := by
  unfold saveById
  rw [List.map_append, List.map_cons]
  rw [if_pos (by simp [hr])]
  have h1 : List.map (fun x => if x.id == s.id then s else x) l₁ = l₁ := by
    have := saveById_eq_of_absent hl₁
    unfold saveById at this
    exact this
  have h2 : List.map (fun x => if x.id == s.id then s else x) l₂ = l₂ := by
    have := saveById_eq_of_absent hl₂
    unfold saveById at this
    exact this
  rw [h1, h2]

lemma ids_saveById (l : List TwSchedule) (s : TwSchedule) :
    (saveById l s).map (fun r => r.id) = l.map (fun r => r.id) := by
  unfold saveById
  rw [List.map_map]
  apply List.map_congr_left
  intro r _
  simp only [Function.comp]
  by_cases h : (r.id == s.id) = true
  · rw [if_pos h]
    exact (eq_of_beq h).symm
  · rw [if_neg h]

lemma ids_shiftPositions (l : List TwSchedule) (c₀ : Nat) (inR : Int → Bool)
    (d : Int) :
    (shiftPositions l c₀ inR d).map (fun r => r.id) = l.map (fun r => r.id) := by
  unfold shiftPositions
  rw [List.map_map]
  apply List.map_congr_left
  intro r _
  simp only [Function.comp]
  by_cases h : (r.boardColumnId == c₀ && !r.isDeleted && inR r.position) = true
  · rw [if_pos h]
  · rw [if_neg h]

lemma mem_denseTarget (n : Nat) (p : Int) :
    p ∈ denseTarget n ↔ 1 ≤ p ∧ p ≤ (n : Int) := by
  unfold denseTarget
  rw [List.mem_map]
  constructor
  · rintro ⟨i, hi, rfl⟩
    rw [List.mem_range] at hi
    omega
  · rintro ⟨h1, h2⟩
    refine ⟨(p - 1).toNat, ?_, ?_⟩
    · rw [List.mem_range]
      omega
    · omega

lemma foldr_max_le (l : List Int) (a m : Int) (ha : a ≤ m)
    (hub : ∀ p ∈ l, p ≤ m) : l.foldr max a ≤ m := by
  induction l with
  | nil => simpa using ha
  | cons b t ih =>
    simp only [List.foldr_cons]
    exact max_le (hub b (List.mem_cons_self b t))
      (ih (fun p hp => hub p (List.mem_cons_of_mem b hp)))

lemma le_foldr_max_base (l : List Int) (a : Int) : a ≤ l.foldr max a := by
  induction l with
  | nil => simp
  | cons b t ih =>
    simp only [List.foldr_cons]
    exact le_trans ih (le_max_right _ _)

lemma le_foldr_max (l : List Int) (a p : Int) (hp : p ∈ l) :
    p ≤ l.foldr max a := by
  induction l with
  | nil => simp at hp
  | cons b t ih =>
    simp only [List.foldr_cons]
    rcases List.mem_cons.mp hp with rfl | hm
    · exact le_max_left _ _
    · exact le_trans (ih hm) (le_max_right _ _)

lemma mem_activePositions_iff_of_dense {l : List TwSchedule} {c : Nat}
    (h : denseCol l c) (p : Int) :
    p ∈ activePositions l c ↔ 1 ≤ p ∧ p ≤ (activeCount l c : Int) := by
  rw [h.mem_iff, mem_denseTarget]

lemma maxActivePos_of_dense {l : List TwSchedule} {c : Nat}
    (h : denseCol l c) :
    maxActivePos l c = (activeCount l c : Int) := by
  unfold maxActivePos
  cases hA : activePositions l c with
  | nil =>
    have hlen : activeCount l c = 0 := by
      have h1 := congrArg List.length hA
      simp only [activePositions, List.length_map, List.length_nil] at h1
      exact h1
    rw [hlen]
    rfl
  | cons p ps =>
    have hlen : activeCount l c = ps.length + 1 := by
      have h1 := congrArg List.length hA
      simp only [activePositions, List.length_map, List.length_cons] at h1
      exact h1
    have hmem : ∀ q ∈ p :: ps, 1 ≤ q ∧ q ≤ (activeCount l c : Int) := by
      intro q hq
      rw [← hA] at hq
      exact (mem_activePositions_iff_of_dense h q).mp hq
    have hN : (activeCount l c : Int) ∈ p :: ps := by
      rw [← hA, mem_activePositions_iff_of_dense h]
      omega
    apply le_antisymm
    · exact foldr_max_le ps p _ (hmem p (List.mem_cons_self p ps)).2
        (fun q hq => (hmem q (List.mem_cons_of_mem p hq)).2)
    · rcases List.mem_cons.mp hN with heq | hmemN
      · rw [heq]
        exact le_foldr_max_base ps p
      · exact le_foldr_max ps p _ hmemN

lemma position_mem_activePositions {l : List TwSchedule} {c : Nat}
    {a : TwSchedule} (ha : a ∈ l) (hc : a.boardColumnId = c)
    (hd : a.isDeleted = false) : a.position ∈ activePositions l c := by
  unfold activePositions activesIn
  rw [List.mem_map]
  exact ⟨a, List.mem_filter.mpr ⟨ha, by simp [hc, hd]⟩, rfl⟩

lemma insertByPos_perm (r : TwSchedule) (l : List TwSchedule) :
    List.Perm (insertByPos r l) (r :: l) := by
  induction l with
  | nil => exact List.Perm.refl _
  | cons x xs ih =>
    unfold insertByPos
    by_cases h : r.position ≤ x.position
    · rw [if_pos h]
    · rw [if_neg h]
      exact List.Perm.trans (List.Perm.cons x ih) (List.Perm.swap r x xs)

lemma sortByPos_perm (l : List TwSchedule) : List.Perm (sortByPos l) l := by
  induction l with
  | nil => exact List.Perm.refl _
  | cons x xs ih =>
    unfold sortByPos
    exact List.Perm.trans (insertByPos_perm x (sortByPos xs)) (List.Perm.cons x ih)

lemma mem_insertByPos {b r : TwSchedule} {l : List TwSchedule} :
    b ∈ insertByPos r l ↔ b = r ∨ b ∈ l := by
  rw [(insertByPos_perm r l).mem_iff, List.mem_cons]

lemma insertByPos_pairwise (r : TwSchedule) {l : List TwSchedule}
    (h : l.Pairwise (fun a b => a.position ≤ b.position)) :
    (insertByPos r l).Pairwise (fun a b => a.position ≤ b.position) := by
  induction l with
  | nil => simp [insertByPos]
  | cons x xs ih =>
    unfold insertByPos
    rw [List.pairwise_cons] at h
    by_cases hle : r.position ≤ x.position
    · rw [if_pos hle]
      refine List.Pairwise.cons ?_ (List.Pairwise.cons h.1 h.2)
      intro b hb
      rcases List.mem_cons.mp hb with rfl | hm
      · exact hle
      · exact le_trans hle (h.1 b hm)
    · rw [if_neg hle]
      refine List.Pairwise.cons ?_ (ih h.2)
      intro b hb
      rcases mem_insertByPos.mp hb with rfl | hm
      · omega
      · exact h.1 b hm

lemma sortByPos_pairwise (l : List TwSchedule) :
    (sortByPos l).Pairwise (fun a b => a.position ≤ b.position) := by
  induction l with
  | nil => simp [sortByPos]
  | cons x xs ih => exact insertByPos_pairwise x ih

lemma findById_id {l : List TwSchedule} {sid : Nat} {r : TwSchedule}
    (h : findById l sid = some r) : r.id = sid := by
  unfold findById at h
  have h2 := List.find?_some h
  simp only [beq_iff_eq] at h2
  exact h2

lemma findById_mem {l : List TwSchedule} {sid : Nat} {r : TwSchedule}
    (h : findById l sid = some r) : r ∈ l := by
  unfold findById at h
  exact List.mem_of_find?_eq_some h

lemma checkAndLog_self (sid wuid : Nat) (logs : List TwScheduleLog)
    (field v : String) : checkAndLog sid wuid logs field v v = logs := by
  unfold checkAndLog
  rw [if_neg (by simp)]

lemma updateSchedulePosition_intra_spec (db : DBState) (sid wuid : Nat)
    (req : TwUpdateSchedulePosition) (now : GoTime) (sched : TwSchedule)
    (hfind : findById db.schedules sid = some sched)
    (hcol : req.boardColumnId = some sched.boardColumnId) :
    updateSchedulePosition db sid wuid req now =
      .ok ({ schedules := db.schedules.map (intraMoveRow sid sched req.position now),
             logs := db.logs ++ checkAndLog sched.id wuid [] "position"
               (toString sched.position) (toString req.position) },
           { sched with position := req.position, updatedAt := some now }) := by
  have hid : sched.id = sid := findById_id hfind
  unfold updateSchedulePosition
  rw [hfind]
  simp only [hcol, eq_self_iff_true, if_true, checkAndLog_self, applyMoveResult,
    Except.ok.injEq, Prod.mk.injEq, DBState.mk.injEq]
  refine ⟨⟨?_, by trivial⟩, by trivial⟩
  rcases lt_trichotomy req.position sched.position with hlt | heq | hgt
  · rw [if_pos hlt]
    unfold saveById shiftPositions
    rw [List.map_map]
    apply List.map_congr_left
    intro r _
    simp only [Function.comp]
    unfold intraMoveRow
    by_cases hr : r.id = sid
    · by_cases hb : (r.boardColumnId == sched.boardColumnId && !r.isDeleted &&
          (decide (r.position < sched.position) && decide (req.position ≤ r.position))) = true
      · rw [if_pos hb, if_pos (by simp [hid, hr]), if_pos hr]
      · rw [if_neg hb, if_pos (by simp [hid, hr]), if_pos hr]
    · by_cases hb : (r.boardColumnId == sched.boardColumnId && !r.isDeleted &&
          (decide (r.position < sched.position) && decide (req.position ≤ r.position))) = true
      · have hbP : (r.boardColumnId = sched.boardColumnId ∧ r.isDeleted = false) ∧
            r.position < sched.position ∧ req.position ≤ r.position := by
          simpa [Bool.and_eq_true, beq_iff_eq, Bool.not_eq_true', decide_eq_true_eq]
            using hb
        rw [if_pos hb, if_neg (by simp [hid, hr]), if_neg hr,
          if_pos ⟨hbP.1.1, hbP.1.2, hbP.2.2, hbP.2.1⟩]
      · rw [if_neg hb, if_neg (by simp [hid, hr]), if_neg hr,
          if_neg (fun hC => hb (by simp [hC.1, hC.2.1, hC.2.2.1, hC.2.2.2])),
          if_neg (by rintro ⟨h1, h2, h3, h4⟩; omega)]
  · rw [if_neg (by omega), if_neg (by omega)]
    unfold saveById
    apply List.map_congr_left
    intro r _
    unfold intraMoveRow
    by_cases hr : r.id = sid
    · rw [if_pos (by simp [hid, hr]), if_pos hr]
    · rw [if_neg (by simp [hid, hr]), if_neg hr,
        if_neg (by rintro ⟨h1, h2, h3, h4⟩; omega),
        if_neg (by rintro ⟨h1, h2, h3, h4⟩; omega)]
  · rw [if_neg (by omega), if_pos hgt]
    unfold saveById shiftPositions
    rw [List.map_map]
    apply List.map_congr_left
    intro r _
    simp only [Function.comp]
    unfold intraMoveRow
    by_cases hr : r.id = sid
    · by_cases hb : (r.boardColumnId == sched.boardColumnId && !r.isDeleted &&
          (decide (sched.position < r.position) && decide (r.position ≤ req.position))) = true
      · rw [if_pos hb, if_pos (by simp [hid, hr]), if_pos hr]
      · rw [if_neg hb, if_pos (by simp [hid, hr]), if_pos hr]
    · by_cases hb : (r.boardColumnId == sched.boardColumnId && !r.isDeleted &&
          (decide (sched.position < r.position) && decide (r.position ≤ req.position))) = true
      · have hbP : (r.boardColumnId = sched.boardColumnId ∧ r.isDeleted = false) ∧
            sched.position < r.position ∧ r.position ≤ req.position := by
          simpa [Bool.and_eq_true, beq_iff_eq, Bool.not_eq_true', decide_eq_true_eq]
            using hb
        rw [if_pos hb, if_neg (by simp [hid, hr]), if_neg hr,
          if_neg (by rintro ⟨h1, h2, h3, h4⟩; omega),
          if_pos ⟨hbP.1.1, hbP.1.2, hbP.2.1, hbP.2.2⟩]
        simp [Int.sub_eq_add_neg]
      · rw [if_neg hb, if_neg (by simp [hid, hr]), if_neg hr,
          if_neg (by rintro ⟨h1, h2, h3, h4⟩; omega),
          if_neg (fun hC => hb (by simp [hC.1, hC.2.1, hC.2.2.1, hC.2.2.2]))]

lemma filter_shiftPositions_other (l : List TwSchedule) (cs bcid : Nat)
    (inR : Int → Bool) (d : Int) (q : Int → Bool) (hne : bcid ≠ cs) :
    (shiftPositions l cs inR d).filter (fun r =>
        r.boardColumnId == bcid && q r.position && !r.isDeleted) =
      l.filter (fun r => r.boardColumnId == bcid && q r.position && !r.isDeleted) := by
  induction l with
  | nil => rfl
  | cons r t ih =>
    simp only [shiftPositions, List.map_cons, List.filter_cons] at ih ⊢
    by_cases hb : (r.boardColumnId == cs && !r.isDeleted && inR r.position) = true
    · have hcs : r.boardColumnId = cs := by
        have := hb
        simp only [Bool.and_eq_true, beq_iff_eq] at this
        exact this.1.1
      rw [if_pos hb]
      have h1 : (({ r with position := r.position + d } : TwSchedule).boardColumnId ==
          bcid && q ({ r with position := r.position + d } : TwSchedule).position &&
          !({ r with position := r.position + d } : TwSchedule).isDeleted) = false := by
        simp only [Bool.and_eq_false_iff]
        left; left
        simp [hcs]
        exact fun h => hne h.symm
      have h2 : (r.boardColumnId == bcid && q r.position && !r.isDeleted) = false := by
        simp only [Bool.and_eq_false_iff]
        left; left
        simp [hcs]
        exact fun h => hne h.symm
      rw [h1, h2]
      simp only [Bool.false_eq_true, if_false]
      exact ih
    · rw [if_neg hb]
      by_cases hq : (r.boardColumnId == bcid && q r.position && !r.isDeleted) = true
      · rw [if_pos hq, if_pos hq]
        exact congrArg _ ih
      · rw [if_neg hq, if_neg hq]
        exact ih

lemma maxActivePos_shiftPositions_other (l : List TwSchedule) (cs bcid : Nat)
    (inR : Int → Bool) (d : Int) (hne : bcid ≠ cs) :
    maxActivePos (shiftPositions l cs inR d) bcid = maxActivePos l bcid := by
  unfold maxActivePos
  rw [activePositions_shiftPositions, if_neg hne]

lemma updateSchedulePosition_cross_spec (db : DBState) (sid wuid : Nat)
    (req : TwUpdateSchedulePosition) (now : GoTime) (sched : TwSchedule)
    (bcid : Nat)
    (hfind : findById db.schedules sid = some sched)
    (hcol : req.boardColumnId = some bcid)
    (hne : bcid ≠ sched.boardColumnId) :
    updateSchedulePosition db sid wuid req now =
      if (db.schedules.filter (fun r => r.boardColumnId == bcid &&
            decide (req.position ≤ r.position) && !r.isDeleted)).isEmpty = true then
        .ok ({ schedules := db.schedules.map
                 (crossMoveRowApp sid sched bcid (maxActivePos db.schedules bcid + 1) now),
               logs := db.logs ++ checkAndLog sched.id wuid
                 (checkAndLog sched.id wuid [] "position"
                   (toString sched.position) (toString req.position))
                 "board_column_id" (toString sched.boardColumnId) (toString bcid) },
             { sched with
               position := maxActivePos db.schedules bcid + 1,
               boardColumnId := bcid,
               updatedAt := some now })
      else
        .ok ({ schedules := db.schedules.map
                 (crossMoveRowIns sid sched bcid req.position now),
               logs := db.logs ++ checkAndLog sched.id wuid
                 (checkAndLog sched.id wuid [] "position"
                   (toString sched.position) (toString req.position))
                 "board_column_id" (toString sched.boardColumnId) (toString bcid) },
             { sched with
               position := req.position,
               boardColumnId := bcid,
               updatedAt := some now }) := by
  have hid : sched.id = sid := findById_id hfind
  unfold updateSchedulePosition
  rw [hfind]
  simp only [hcol]
  rw [if_neg hne]
  rw [filter_shiftPositions_other db.schedules sched.boardColumnId bcid
    (fun p => decide (sched.position < p)) (-1)
    (fun p => decide (req.position ≤ p)) hne]
  rw [maxActivePos_shiftPositions_other db.schedules sched.boardColumnId bcid
    (fun p => decide (sched.position < p)) (-1) hne]
  by_cases hT : (db.schedules.filter (fun r => r.boardColumnId == bcid &&
      decide (req.position ≤ r.position) && !r.isDeleted)).isEmpty = true
  · rw [if_pos hT, if_pos hT]
    simp only [applyMoveResult, Except.ok.injEq, Prod.mk.injEq, DBState.mk.injEq]
    refine ⟨⟨?_, by trivial⟩, by trivial⟩
    unfold saveById shiftPositions
    rw [List.map_map]
    apply List.map_congr_left
    intro r _
    simp only [Function.comp]
    unfold crossMoveRowApp
    by_cases hr : r.id = sid
    · by_cases hb : (r.boardColumnId == sched.boardColumnId && !r.isDeleted &&
          decide (sched.position < r.position)) = true
      · rw [if_pos hb, if_pos (by simp [hid, hr]), if_pos hr]
      · rw [if_neg hb, if_pos (by simp [hid, hr]), if_pos hr]
    · by_cases hb : (r.boardColumnId == sched.boardColumnId && !r.isDeleted &&
          decide (sched.position < r.position)) = true
      · have hbP : (r.boardColumnId = sched.boardColumnId ∧ r.isDeleted = false) ∧
            sched.position < r.position := by
          simpa [Bool.and_eq_true, beq_iff_eq, Bool.not_eq_true', decide_eq_true_eq]
            using hb
        rw [if_pos hb, if_neg (by simp [hid, hr]), if_neg hr,
          if_pos ⟨hbP.1.1, hbP.1.2, hbP.2⟩]
        simp [Int.sub_eq_add_neg]
      · rw [if_neg hb, if_neg (by simp [hid, hr]), if_neg hr,
          if_neg (fun hC => hb (by simp [hC.1, hC.2.1, hC.2.2]))]
  · rw [if_neg hT, if_neg hT]
    simp only [applyMoveResult, Except.ok.injEq, Prod.mk.injEq, DBState.mk.injEq]
    refine ⟨⟨?_, by trivial⟩, by trivial⟩
    unfold saveById shiftPositions
    rw [List.map_map, List.map_map]
    apply List.map_congr_left
    intro r _
    simp only [Function.comp]
    unfold crossMoveRowIns
    by_cases hr : r.id = sid
    · rw [if_pos (by split_ifs <;> simp [hid, hr]), if_pos hr]
    · rw [if_neg (by split_ifs <;> simp [hid, hr]), if_neg hr]
      by_cases hb1 : (r.boardColumnId == sched.boardColumnId && !r.isDeleted &&
          decide (sched.position < r.position)) = true
      · have hbP : (r.boardColumnId = sched.boardColumnId ∧ r.isDeleted = false) ∧
            sched.position < r.position := by
          simpa [Bool.and_eq_true, beq_iff_eq, Bool.not_eq_true', decide_eq_true_eq]
            using hb1
        have hcb : (r.boardColumnId == bcid) = false := by
          simp only [beq_eq_false_iff_ne]
          rw [hbP.1.1]
          exact fun h => hne h.symm
        simp only [if_pos hb1]
        rw [if_neg (by simp [hcb])]
        rw [if_pos ⟨hbP.1.1, hbP.1.2, hbP.2⟩]
        simp [Int.sub_eq_add_neg]
      · simp only [if_neg hb1]
        by_cases hb2 : (r.boardColumnId == bcid && !r.isDeleted &&
            decide (req.position ≤ r.position)) = true
        · have hbQ : (r.boardColumnId = bcid ∧ r.isDeleted = false) ∧
              req.position ≤ r.position := by
            simpa [Bool.and_eq_true, beq_iff_eq, Bool.not_eq_true', decide_eq_true_eq]
              using hb2
          simp only [if_pos hb2]
          rw [if_neg (fun hC => hne (hbQ.1.1.symm.trans hC.1)),
            if_pos ⟨hbQ.1.1, hbQ.1.2, hbQ.2⟩]
        · simp only [if_neg hb2]
          rw [if_neg (fun hC => hb1 (by simp [hC.1, hC.2.1, hC.2.2])),
            if_neg (fun hC => hb2 (by simp [hC.1, hC.2.1, hC.2.2]))]

lemma deleteSchedule_spec (db : DBState) (sid wuid : Nat) (now : GoTime)
    (sched : TwSchedule)
    (hfind : findById db.schedules sid = some sched) :
    deleteSchedule db sid wuid now =
      .ok { schedules := db.schedules.map (deleteRow sid sched now),
            logs := db.logs ++ [{ scheduleId := sched.id,
                                  workspaceUserId := wuid,
                                  action := "delete schedule",
                                  fieldChanged := "",
                                  oldValue := "",
                                  newValue := "" }] } := by
  have hid : sched.id = sid := findById_id hfind
  unfold deleteSchedule
  rw [hfind]
  simp only [Except.ok.injEq, DBState.mk.injEq]
  refine ⟨?_, by trivial⟩
  unfold saveById shiftPositions
  rw [List.map_map]
  apply List.map_congr_left
  intro r _
  simp only [Function.comp]
  unfold deleteRow
  by_cases hr : r.id = sid
  · rw [if_neg (by split_ifs <;> simp_all [hid]), if_pos (by simp [hid, hr]),
      if_pos hr]
  · have hsv : (r.id == sched.id) = false := by
      simp [hid, hr]
    simp only [hsv, Bool.false_eq_true, if_false]
    by_cases hb : (r.boardColumnId == sched.boardColumnId && !r.isDeleted &&
        decide (sched.position < r.position)) = true
    · have hbP : (r.boardColumnId = sched.boardColumnId ∧ r.isDeleted = false) ∧
          sched.position < r.position := by
        simpa [Bool.and_eq_true, beq_iff_eq, Bool.not_eq_true', decide_eq_true_eq]
          using hb
      rw [if_pos hb, if_neg hr, if_pos ⟨hbP.1.1, hbP.1.2, hbP.2⟩]
      simp [Int.sub_eq_add_neg]
    · rw [if_neg hb, if_neg hr,
        if_neg (fun hC => hb (by simp [hC.1, hC.2.1, hC.2.2]))]

lemma checkAndLog_eq_append (sid wuid : Nat) (logs : List TwScheduleLog)
    (field oldV newV : String) :
    checkAndLog sid wuid logs field oldV newV =
      logs ++ logDelta sid wuid field oldV newV := by
  unfold checkAndLog logDelta
  split_ifs <;> simp

lemma updTitle_eq (wuid : Nat) (p : TwSchedule × List TwScheduleLog)
    (v? : Option String) :
    updTitle wuid p v? = ({ p.1 with title := v?.getD p.1.title },
      p.2 ++ strLogDelta p.1.id wuid "title" p.1.title v?) := by
  cases v? <;> simp [updTitle, checkAndLog_eq_append, strLogDelta]

lemma updDescription_eq (wuid : Nat) (p : TwSchedule × List TwScheduleLog)
    (v? : Option String) :
    updDescription wuid p v? =
      ({ p.1 with description := v?.getD p.1.description },
       p.2 ++ strLogDelta p.1.id wuid "description" p.1.description v?) := by
  cases v? <;> simp [updDescription, checkAndLog_eq_append, strLogDelta]

lemma updStartTime_eq (wuid : Nat) (p : TwSchedule × List TwScheduleLog)
    (v? : Option String) :
    updStartTime wuid p v? =
      ({ p.1 with startTime := newTimeField p.1.startTime v? },
       p.2 ++ timeLogDelta p.1.id wuid "start_time" p.1.startTime v?) := by
  cases v? with
  | none => simp [updStartTime, timeLogDelta, newTimeField]
  | some v =>
    cases hc : convertDateFormat v <;>
      simp [updStartTime, checkAndLog_eq_append, timeLogDelta, newTimeField, hc]

lemma updEndTime_eq (wuid : Nat) (p : TwSchedule × List TwScheduleLog)
    (v? : Option String) :
    updEndTime wuid p v? =
      ({ p.1 with endTime := newTimeField p.1.endTime v? },
       p.2 ++ timeLogDelta p.1.id wuid "end_time" p.1.endTime v?) := by
  cases v? with
  | none => simp [updEndTime, timeLogDelta, newTimeField]
  | some v =>
    cases hc : convertDateFormat v <;>
      simp [updEndTime, checkAndLog_eq_append, timeLogDelta, newTimeField, hc]

lemma updLocation_eq (wuid : Nat) (p : TwSchedule × List TwScheduleLog)
    (v? : Option String) :
    updLocation wuid p v? = ({ p.1 with location := v?.getD p.1.location },
      p.2 ++ strLogDelta p.1.id wuid "location" p.1.location v?) := by
  cases v? <;> simp [updLocation, checkAndLog_eq_append, strLogDelta]

lemma updStatus_eq (wuid : Nat) (p : TwSchedule × List TwScheduleLog)
    (v? : Option String) :
    updStatus wuid p v? = ({ p.1 with status := v?.getD p.1.status },
      p.2 ++ strLogDelta p.1.id wuid "status" p.1.status v?) := by
  cases v? <;> simp [updStatus, checkAndLog_eq_append, strLogDelta]

lemma updAllDay_eq (wuid : Nat) (p : TwSchedule × List TwScheduleLog)
    (v? : Option Bool) :
    updAllDay wuid p v? = ({ p.1 with allDay := v?.getD p.1.allDay },
      p.2 ++ boolLogDelta p.1.id wuid "all_day" p.1.allDay v?) := by
  cases v? <;> simp [updAllDay, checkAndLog_eq_append, boolLogDelta]

lemma updVisibility_eq (wuid : Nat) (p : TwSchedule × List TwScheduleLog)
    (v? : Option String) :
    updVisibility wuid p v? = ({ p.1 with visibility := v?.getD p.1.visibility },
      p.2 ++ strLogDelta p.1.id wuid "visibility" p.1.visibility v?) := by
  cases v? <;> simp [updVisibility, checkAndLog_eq_append, strLogDelta]

lemma updExtraData_eq (wuid : Nat) (p : TwSchedule × List TwScheduleLog)
    (v? : Option String) :
    updExtraData wuid p v? = ({ p.1 with extraData := v?.getD p.1.extraData },
      p.2 ++ strLogDelta p.1.id wuid "extra_data" p.1.extraData v?) := by
  cases v? <;> simp [updExtraData, checkAndLog_eq_append, strLogDelta]

lemma updRecurrencePattern_eq (wuid : Nat) (p : TwSchedule × List TwScheduleLog)
    (v? : Option String) :
    updRecurrencePattern wuid p v? =
      ({ p.1 with recurrencePattern := v?.getD p.1.recurrencePattern },
       p.2 ++ strLogDelta p.1.id wuid "recurrence_pattern"
         p.1.recurrencePattern v?) := by
  cases v? <;> simp [updRecurrencePattern, checkAndLog_eq_append, strLogDelta]

lemma updPriority_eq (wuid : Nat) (p : TwSchedule × List TwScheduleLog)
    (v? : Option String) :
    updPriority wuid p v? = ({ p.1 with priority := v?.getD p.1.priority },
      p.2 ++ strLogDelta p.1.id wuid "priority" p.1.priority v?) := by
  cases v? <;> simp [updPriority, checkAndLog_eq_append, strLogDelta]

lemma updVideoTranscript_eq (wuid : Nat) (p : TwSchedule × List TwScheduleLog)
    (v? : Option String) :
    updVideoTranscript wuid p v? =
      ({ p.1 with videoTranscript := v?.getD p.1.videoTranscript },
       p.2 ++ strLogDelta p.1.id wuid "video_transcript"
         p.1.videoTranscript v?) := by
  cases v? <;> simp [updVideoTranscript, checkAndLog_eq_append, strLogDelta]

lemma updateSchedule_spec (db : DBState) (sid wuid : Nat)
    (req : TwUpdateScheduleRequest) (now : GoTime) (sched : TwSchedule)
    (hfind : findById db.schedules sid = some sched) :
    updateSchedule db sid wuid req now =
      .ok ({ schedules := saveById db.schedules (applyPatch sched req wuid now),
             logs := db.logs ++ updateLogs sched req wuid },
           applyPatch sched req wuid now) := by
  unfold updateSchedule
  rw [hfind]
  simp only [updTitle_eq, updDescription_eq, updStartTime_eq, updEndTime_eq,
    updLocation_eq, updStatus_eq, updAllDay_eq, updVisibility_eq,
    updExtraData_eq, updRecurrencePattern_eq, updPriority_eq,
    updVideoTranscript_eq, applyPatch, updateLogs,
    List.append_assoc, List.nil_append, List.append_nil]

lemma nodup_findById_decomp {l : List TwSchedule} {sid : Nat} {r : TwSchedule}
    (hnodup : (l.map (fun x => x.id)).Nodup)
    (h : findById l sid = some r) :
    ∃ l₁ l₂, l = l₁ ++ r :: l₂ ∧ (∀ x ∈ l₁, x.id ≠ sid) ∧
      (∀ x ∈ l₂, x.id ≠ sid) ∧ r.id = sid := by
  obtain ⟨l₁, l₂, hdec, hl₁, hr⟩ := findById_decomp h
  refine ⟨l₁, l₂, hdec, hl₁, ?_, hr⟩
  subst hdec
  rw [List.map_append, List.map_cons] at hnodup
  have h2 := (List.nodup_append.mp hnodup).2.1
  rw [List.nodup_cons] at h2
  intro x hx hc
  exact h2.1 (List.mem_map.mpr ⟨x, hx, hc.trans hr.symm⟩)

lemma shiftPositions_append (l₁ l₂ : List TwSchedule) (c : Nat)
    (inR : Int → Bool) (d : Int) :
    shiftPositions (l₁ ++ l₂) c inR d =
      shiftPositions l₁ c inR d ++ shiftPositions l₂ c inR d := by
  unfold shiftPositions
  exact List.map_append _ _ _

lemma mem_shiftPositions_id {l : List TwSchedule} {c : Nat} {inR : Int → Bool}
    {d : Int} {x : TwSchedule} (hx : x ∈ shiftPositions l c inR d) :
    ∃ y ∈ l, x.id = y.id := by
  unfold shiftPositions at hx
  obtain ⟨y, hy, hxy⟩ := List.mem_map.mp hx
  refine ⟨y, hy, ?_⟩
  subst hxy
  split_ifs <;> rfl

/-- The action of an intra-column move on the rows other than the moved one
is the composition of the two sibling shifts of the source (only one of
which can be non-trivial for any given row). -/
lemma map_intraMoveRow_eq_shifts (sid : Nat) (sched : TwSchedule) (rp : Int)
    (now : GoTime) (l : List TwSchedule) (hl : ∀ x ∈ l, x.id ≠ sid) :
    l.map (intraMoveRow sid sched rp now) =
      shiftPositions (shiftPositions l sched.boardColumnId
          (fun q => decide (rp ≤ q) && decide (q < sched.position)) 1)
        sched.boardColumnId
        (fun q => decide (sched.position < q) && decide (q ≤ rp)) (-1) := by
  unfold shiftPositions
  rw [List.map_map]
  apply List.map_congr_left
  intro x hx
  simp only [Function.comp]
  unfold intraMoveRow
  rw [if_neg (hl x hx)]
  by_cases h1 : (x.boardColumnId == sched.boardColumnId && !x.isDeleted &&
      (decide (rp ≤ x.position) && decide (x.position < sched.position))) = true
  · obtain ⟨⟨hbc, hdel⟩, hge, hlt⟩ :
        (x.boardColumnId = sched.boardColumnId ∧ x.isDeleted = false) ∧
          rp ≤ x.position ∧ x.position < sched.position := by
      simpa [Bool.and_eq_true, beq_iff_eq, Bool.not_eq_true', decide_eq_true_eq]
        using h1
    rw [if_pos ⟨hbc, hdel, hge, hlt⟩]
    simp only [if_pos h1]
    rw [if_neg (by
      simp only [Bool.and_eq_true, beq_iff_eq, decide_eq_true_eq]
      rintro ⟨-, hgt, -⟩
      omega)]
  · rw [if_neg (fun hC => h1 (by simp [hC.1, hC.2.1, hC.2.2.1, hC.2.2.2]))]
    simp only [if_neg h1]
    by_cases h2 : (x.boardColumnId == sched.boardColumnId && !x.isDeleted &&
        (decide (sched.position < x.position) && decide (x.position ≤ rp))) = true
    · obtain ⟨⟨hbc, hdel⟩, hgt, hle⟩ :
          (x.boardColumnId = sched.boardColumnId ∧ x.isDeleted = false) ∧
            sched.position < x.position ∧ x.position ≤ rp := by
        simpa [Bool.and_eq_true, beq_iff_eq, Bool.not_eq_true', decide_eq_true_eq]
          using h2
      rw [if_pos ⟨hbc, hdel, hgt, hle⟩, if_pos h2]
      simp [Int.sub_eq_add_neg]
    · rw [if_neg (fun hC => h2 (by simp [hC.1, hC.2.1, hC.2.2.1, hC.2.2.2])),
        if_neg h2]

/-- The action of a deletion on the rows other than the deleted one is the
gap-closing shift of its column. -/
lemma map_deleteRow_eq_shift (sid : Nat) (sched : TwSchedule) (now : GoTime)
    (l : List TwSchedule) (hl : ∀ x ∈ l, x.id ≠ sid) :
    l.map (deleteRow sid sched now) =
      shiftPositions l sched.boardColumnId
        (fun q => decide (sched.position < q)) (-1) := by
  unfold shiftPositions
  apply List.map_congr_left
  intro x hx
  unfold deleteRow
  rw [if_neg (hl x hx)]
  by_cases h : (x.boardColumnId == sched.boardColumnId && !x.isDeleted &&
      decide (sched.position < x.position)) = true
  · obtain ⟨⟨hbc, hdel⟩, hgt⟩ :
        (x.boardColumnId = sched.boardColumnId ∧ x.isDeleted = false) ∧
          sched.position < x.position := by
      simpa [Bool.and_eq_true, beq_iff_eq, Bool.not_eq_true', decide_eq_true_eq]
        using h
    rw [if_pos ⟨hbc, hdel, hgt⟩, if_pos h]
    simp [Int.sub_eq_add_neg]
  · rw [if_neg (fun hC => h (by simp [hC.1, hC.2.1, hC.2.2])), if_neg h]

/-- The action of a mid-insert cross-column move on the rows other than the
moved one is the source gap-closing shift followed by the target slot-opening
shift. -/
lemma map_crossMoveRowIns_eq_shifts (sid : Nat) (sched : TwSchedule)
    (bcid : Nat) (rp : Int) (now : GoTime) (l : List TwSchedule)
    (hl : ∀ x ∈ l, x.id ≠ sid) (hne : bcid ≠ sched.boardColumnId) :
    l.map (crossMoveRowIns sid sched bcid rp now) =
      shiftPositions (shiftPositions l sched.boardColumnId
          (fun q => decide (sched.position < q)) (-1))
        bcid (fun q => decide (rp ≤ q)) 1 := by
  unfold shiftPositions
  rw [List.map_map]
  apply List.map_congr_left
  intro x hx
  simp only [Function.comp]
  unfold crossMoveRowIns
  rw [if_neg (hl x hx)]
  by_cases h1 : (x.boardColumnId == sched.boardColumnId && !x.isDeleted &&
      decide (sched.position < x.position)) = true
  · obtain ⟨⟨hbc, hdel⟩, hgt⟩ :
        (x.boardColumnId = sched.boardColumnId ∧ x.isDeleted = false) ∧
          sched.position < x.position := by
      simpa [Bool.and_eq_true, beq_iff_eq, Bool.not_eq_true', decide_eq_true_eq]
        using h1
    rw [if_pos ⟨hbc, hdel, hgt⟩]
    simp only [if_pos h1]
    rw [if_neg (by
      simp only [Bool.and_eq_true, beq_iff_eq, decide_eq_true_eq]
      rintro ⟨⟨hc, -⟩, -⟩
      exact hne (hc.symm.trans hbc))]
    simp [Int.sub_eq_add_neg]
  · rw [if_neg (fun hC => h1 (by simp [hC.1, hC.2.1, hC.2.2]))]
    simp only [if_neg h1]
    by_cases h2 : (x.boardColumnId == bcid && !x.isDeleted &&
        decide (rp ≤ x.position)) = true
    · obtain ⟨⟨hbc, hdel⟩, hge⟩ :
          (x.boardColumnId = bcid ∧ x.isDeleted = false) ∧ rp ≤ x.position := by
        simpa [Bool.and_eq_true, beq_iff_eq, Bool.not_eq_true', decide_eq_true_eq]
          using h2
      rw [if_pos ⟨hbc, hdel, hge⟩, if_pos h2]
    · rw [if_neg (fun hC => h2 (by simp [hC.1, hC.2.1, hC.2.2])), if_neg h2]

/-- The action of an appending cross-column move on the rows other than the
moved one is just the source gap-closing shift. -/
lemma map_crossMoveRowApp_eq_shift (sid : Nat) (sched : TwSchedule)
    (bcid : Nat) (np : Int) (now : GoTime) (l : List TwSchedule)
    (hl : ∀ x ∈ l, x.id ≠ sid) :
    l.map (crossMoveRowApp sid sched bcid np now) =
      shiftPositions l sched.boardColumnId
        (fun q => decide (sched.position < q)) (-1) := by
  unfold shiftPositions
  apply List.map_congr_left
  intro x hx
  unfold crossMoveRowApp
  rw [if_neg (hl x hx)]
  by_cases h : (x.boardColumnId == sched.boardColumnId && !x.isDeleted &&
      decide (sched.position < x.position)) = true
  · obtain ⟨⟨hbc, hdel⟩, hgt⟩ :
        (x.boardColumnId = sched.boardColumnId ∧ x.isDeleted = false) ∧
          sched.position < x.position := by
      simpa [Bool.and_eq_true, beq_iff_eq, Bool.not_eq_true', decide_eq_true_eq]
        using h
    rw [if_pos ⟨hbc, hdel, hgt⟩, if_pos h]
    simp [Int.sub_eq_add_neg]
  · rw [if_neg (fun hC => h (by simp [hC.1, hC.2.1, hC.2.2])), if_neg h]

lemma denseTarget_succ (n : Nat) :
    denseTarget (n + 1) = denseTarget n ++ [(n : Int) + 1] := by
  unfold denseTarget
  rw [List.range_succ, List.map_append]
  rfl

/-- Appending at position `n + 1` extends a dense position multiset. -/
lemma dense_append_lemma {R : List Int} {n : Nat}
    (h : List.Perm R (denseTarget n)) :
    List.Perm (((n : Int) + 1) :: R) (denseTarget (n + 1)) := by
  rw [denseTarget_succ]
  exact List.Perm.trans (List.Perm.cons _ h)
    (List.perm_append_singleton _ _).symm

/-- Opening a slot at `rp` and inserting there preserves density. -/
lemma dense_insert_lemma {R : List Int} {n : Nat} {rp : Int}
    (inR : Int → Bool) (hR : ∀ q, inR q = true ↔ rp ≤ q)
    (hlo : 1 ≤ rp) (hhi : rp ≤ (n : Int))
    (h : List.Perm R (denseTarget n)) :
    List.Perm (rp :: R.map (fun q => if inR q = true then q + 1 else q))
      (denseTarget (n + 1)) := by
  rw [List.perm_iff_count]
  intro k
  rw [List.count_cons, count_map_shiftFun, count_denseTarget]
  have e1 : R.count (k - 1) = if 1 ≤ k - 1 ∧ k - 1 ≤ (n : Int) then 1 else 0 := by
    rw [h.count_eq, count_denseTarget]
  have e2 : R.count k = if 1 ≤ k ∧ k ≤ (n : Int) then 1 else 0 := by
    rw [h.count_eq, count_denseTarget]
  rw [e1, e2]
  simp only [hR, beq_iff_eq, Nat.cast_succ]
  split_ifs <;> omega

/-- Closing the gap left at `sp` preserves density with one fewer element. -/
lemma dense_delete_lemma {Q : List Int} {n : Nat} {sp : Int}
    (inR : Int → Bool) (hR : ∀ q, inR q = true ↔ sp < q)
    (hlo : 1 ≤ sp) (hhi : sp ≤ (n : Int))
    (h : List.Perm (sp :: Q) (denseTarget n)) :
    List.Perm (Q.map (fun q => if inR q = true then q + (-1) else q))
      (denseTarget (n - 1)) := by
  have hn : 1 ≤ n := by
    rcases Nat.eq_zero_or_pos n with h0 | h1
    · subst h0
      have := h.length_eq
      simp [denseTarget] at this
    · exact h1
  rw [List.perm_iff_count]
  intro k
  rw [count_map_shiftFun, count_denseTarget]
  have e1 : Q.count (k + 1) + (if sp = k + 1 then 1 else 0) =
      if 1 ≤ k + 1 ∧ k + 1 ≤ (n : Int) then 1 else 0 := by
    have := h.count_eq (k + 1)
    rw [List.count_cons, count_denseTarget] at this
    simp only [beq_iff_eq] at this
    split_ifs at this ⊢ <;> omega
  have e2 : Q.count k + (if sp = k then 1 else 0) =
      if 1 ≤ k ∧ k ≤ (n : Int) then 1 else 0 := by
    have := h.count_eq k
    rw [List.count_cons, count_denseTarget] at this
    simp only [beq_iff_eq] at this
    split_ifs at this ⊢ <;> omega
  have hcast : ((n - 1 : Nat) : Int) = (n : Int) - 1 := by omega
  have hkd : k - (-1) = k + 1 := by omega
  simp only [hcast, hkd, hR]
  split_ifs at e1 e2 ⊢ <;> omega

lemma count_of_perm_dense_cons {Q : List Int} {sp : Int} {n : Nat}
    (h : List.Perm (sp :: Q) (denseTarget n)) (hsp : 1 ≤ sp)
    (hspn : sp ≤ (n : Int)) (m : Int) :
    Q.count m = if 1 ≤ m ∧ m ≤ (n : Int) ∧ m ≠ sp then 1 else 0 := by
  have hc := h.count_eq m
  rw [List.count_cons, count_denseTarget] at hc
  simp only [beq_iff_eq] at hc
  split_ifs at hc ⊢ <;> omega

/-- Rotating the block between the removed slot `sp` and the requested slot
`rp` and re-inserting at `rp` preserves density. -/
lemma dense_rotate_lemma {Q : List Int} {n : Nat} {rp sp : Int}
    (inP inM : Int → Bool)
    (hP : ∀ q, inP q = true ↔ rp ≤ q ∧ q < sp)
    (hM : ∀ q, inM q = true ↔ sp < q ∧ q ≤ rp)
    (hrp : 1 ≤ rp) (hrpn : rp ≤ (n : Int))
    (hsp : 1 ≤ sp) (hspn : sp ≤ (n : Int))
    (h : List.Perm (sp :: Q) (denseTarget n)) :
    List.Perm (rp :: ((Q.map (fun q => if inP q = true then q + 1 else q)).map
        (fun q => if inM q = true then q + (-1) else q)))
      (denseTarget n) := by
  rw [List.perm_iff_count]
  intro k
  have eK := count_of_perm_dense_cons h hsp hspn k
  have eK1 := count_of_perm_dense_cons h hsp hspn (k + 1)
  have eKm1 := count_of_perm_dense_cons h hsp hspn (k - 1)
  rw [List.count_cons, count_map_shiftFun, count_map_shiftFun,
    count_map_shiftFun, count_denseTarget]
  have h1 : k - (-1) = k + 1 := by omega
  have h2 : k + 1 - 1 = k := by omega
  simp only [h1, h2, hP, hM, beq_iff_eq]
  rw [eK, eK1, eKm1]
  split_ifs <;> omega

lemma activePositions_append (A B : List TwSchedule) (c : Nat) :
    activePositions (A ++ B) c = activePositions A c ++ activePositions B c := by
  unfold activePositions
  rw [activesIn_append, List.map_append]

lemma activePositions_cons_active (x : TwSchedule) (c : Nat)
    (l : List TwSchedule) (h1 : x.boardColumnId = c) (h2 : x.isDeleted = false) :
    activePositions (x :: l) c = x.position :: activePositions l c := by
  unfold activePositions activesIn
  rw [List.filter_cons, if_pos (by simp [h1, h2]), List.map_cons]

lemma activePositions_cons_inactive (x : TwSchedule) (c : Nat)
    (l : List TwSchedule)
    (h : ¬(x.boardColumnId = c ∧ x.isDeleted = false)) :
    activePositions (x :: l) c = activePositions l c := by
  unfold activePositions activesIn
  rw [List.filter_cons, if_neg (by
    simp only [Bool.and_eq_true, beq_iff_eq, Bool.not_eq_true']
    exact fun hc => h ⟨hc.1, hc.2⟩)]

lemma intra_move_preserves_dense (l : List TwSchedule) (sid : Nat)
    (sched : TwSchedule) (rp : Int) (now : GoTime)
    (hnodup : (l.map (fun r => r.id)).Nodup)
    (hfind : findById l sid = some sched)
    (hact : sched.isDeleted = false)
    (hlo : 1 ≤ rp) (hhi : rp ≤ (activeCount l sched.boardColumnId : Int))
    (hdense : ∀ c, denseCol l c) :
    ∀ c, denseCol (l.map (intraMoveRow sid sched rp now)) c := by
  obtain ⟨l₁, l₂, hdec, h1, h2, hid⟩ := nodup_findById_decomp hnodup hfind
  subst hdec
  have hsched_mem : sched ∈ l₁ ++ sched :: l₂ := by simp
  have hsp := (mem_activePositions_iff_of_dense (hdense sched.boardColumnId)
    sched.position).mp
    (position_mem_activePositions hsched_mem rfl hact)
  intro c
  rw [List.map_append, List.map_cons]
  have hprim : intraMoveRow sid sched rp now sched =
      { sched with position := rp, updatedAt := some now } := by
    unfold intraMoveRow
    rw [if_pos hid]
  rw [hprim, map_intraMoveRow_eq_shifts sid sched rp now l₁ h1,
    map_intraMoveRow_eq_shifts sid sched rp now l₂ h2]
  unfold denseCol
  have hcntnew : activeCount (shiftPositions (shiftPositions l₁ sched.boardColumnId
        (fun q => decide (rp ≤ q) && decide (q < sched.position)) 1)
        sched.boardColumnId
        (fun q => decide (sched.position < q) && decide (q ≤ rp)) (-1) ++
      { sched with position := rp, updatedAt := some now } ::
        shiftPositions (shiftPositions l₂ sched.boardColumnId
          (fun q => decide (rp ≤ q) && decide (q < sched.position)) 1)
          sched.boardColumnId
          (fun q => decide (sched.position < q) && decide (q ≤ rp)) (-1)) c =
      activeCount (l₁ ++ sched :: l₂) c := by
    rw [activeCount_append, activeCount_cons, activeCount_shiftPositions,
      activeCount_shiftPositions, activeCount_shiftPositions,
      activeCount_shiftPositions, activeCount_append, activeCount_cons]
    rfl
  rw [hcntnew]
  by_cases hc : c = sched.boardColumnId
  · subst hc
    rw [activePositions_append,
      activePositions_cons_active
        { sched with position := rp, updatedAt := some now }
        sched.boardColumnId _ rfl hact,
      activePositions_shiftPositions, if_pos rfl,
      activePositions_shiftPositions, if_pos rfl,
      activePositions_shiftPositions, if_pos rfl,
      activePositions_shiftPositions, if_pos rfl]
    refine List.Perm.trans List.perm_middle ?_
    rw [← List.map_append, ← List.map_append]
    have horig := hdense sched.boardColumnId
    unfold denseCol at horig
    rw [activePositions_append,
      activePositions_cons_active sched sched.boardColumnId _ rfl hact] at horig
    have hQ : List.Perm (sched.position ::
        (activePositions l₁ sched.boardColumnId ++
         activePositions l₂ sched.boardColumnId))
        (denseTarget (activeCount (l₁ ++ sched :: l₂) sched.boardColumnId)) :=
      List.Perm.trans List.perm_middle.symm horig
    exact dense_rotate_lemma _ _
      (fun q => by simp) (fun q => by simp)
      hlo hhi hsp.1 hsp.2 hQ
  · rw [activePositions_append,
      activePositions_cons_inactive
        { sched with position := rp, updatedAt := some now } c _
        (fun hC => hc hC.1.symm),
      activePositions_shiftPositions, if_neg hc,
      activePositions_shiftPositions, if_neg hc,
      activePositions_shiftPositions, if_neg hc,
      activePositions_shiftPositions, if_neg hc]
    have horig := hdense c
    unfold denseCol at horig
    rw [activePositions_append,
      activePositions_cons_inactive sched c _ (fun hC => hc hC.1.symm)] at horig
    exact horig

lemma delete_preserves_dense (l : List TwSchedule) (sid : Nat)
    (sched : TwSchedule) (now : GoTime)
    (hnodup : (l.map (fun r => r.id)).Nodup)
    (hfind : findById l sid = some sched)
    (hact : sched.isDeleted = false)
    (hdense : ∀ c, denseCol l c) :
    ∀ c, denseCol (l.map (deleteRow sid sched now)) c := by
  obtain ⟨l₁, l₂, hdec, h1, h2, hid⟩ := nodup_findById_decomp hnodup hfind
  subst hdec
  have hsched_mem : sched ∈ l₁ ++ sched :: l₂ := by simp
  have hsp := (mem_activePositions_iff_of_dense (hdense sched.boardColumnId)
    sched.position).mp
    (position_mem_activePositions hsched_mem rfl hact)
  intro c
  rw [List.map_append, List.map_cons]
  have hprim : deleteRow sid sched now sched =
      { sched with
        isDeleted := true,
        updatedAt := some now,
        deletedAt := some now } := by
    unfold deleteRow
    rw [if_pos hid]
  rw [hprim, map_deleteRow_eq_shift sid sched now l₁ h1,
    map_deleteRow_eq_shift sid sched now l₂ h2]
  unfold denseCol
  rw [activeCount_append, activeCount_cons, activeCount_shiftPositions,
    activeCount_shiftPositions]
  have hind0 : activeInd { sched with
      isDeleted := true,
      updatedAt := some now,
      deletedAt := some now } c = 0 := by
    unfold activeInd
    rw [if_neg (by rintro ⟨-, hdel⟩; exact absurd hdel (by simp))]
  rw [hind0]
  rw [activePositions_append,
    activePositions_cons_inactive
      { sched with
        isDeleted := true,
        updatedAt := some now,
        deletedAt := some now } c _
      (by rintro ⟨-, hdel⟩; exact absurd hdel (by simp))]
  by_cases hc : c = sched.boardColumnId
  · subst hc
    rw [activePositions_shiftPositions, if_pos rfl,
      activePositions_shiftPositions, if_pos rfl,
      ← List.map_append]
    have horig := hdense sched.boardColumnId
    unfold denseCol at horig
    rw [activePositions_append,
      activePositions_cons_active sched sched.boardColumnId _ rfl hact,
      activeCount_append, activeCount_cons] at horig
    have hQ := List.Perm.trans List.perm_middle.symm horig
    have hcnt : activeCount l₁ sched.boardColumnId + (0 +
        activeCount l₂ sched.boardColumnId) =
        (activeCount l₁ sched.boardColumnId +
          (activeInd sched sched.boardColumnId +
            activeCount l₂ sched.boardColumnId)) - 1 := by
      unfold activeInd
      rw [if_pos ⟨rfl, hact⟩]
      omega
    rw [hcnt]
    refine dense_delete_lemma _ (fun q => by simp) hsp.1 ?_ hQ
    rw [activeCount_append, activeCount_cons] at hsp
    exact hsp.2
  · rw [activePositions_shiftPositions, if_neg hc,
      activePositions_shiftPositions, if_neg hc]
    have horig := hdense c
    unfold denseCol at horig
    rw [activePositions_append,
      activePositions_cons_inactive sched c _ (fun hC => hc hC.1.symm),
      activeCount_append, activeCount_cons] at horig
    have hind0' : activeInd sched c = 0 := by
      unfold activeInd
      rw [if_neg (fun hC => hc hC.1.symm)]
    rw [hind0'] at horig
    exact horig

lemma crossApp_preserves_dense (l : List TwSchedule) (sid : Nat)
    (sched : TwSchedule) (bcid : Nat) (now : GoTime)
    (hnodup : (l.map (fun r => r.id)).Nodup)
    (hfind : findById l sid = some sched)
    (hact : sched.isDeleted = false)
    (hne : bcid ≠ sched.boardColumnId)
    (hdense : ∀ c, denseCol l c) :
    ∀ c, denseCol (l.map (crossMoveRowApp sid sched bcid
      (maxActivePos l bcid + 1) now)) c := by
  have hmax : maxActivePos l bcid = (activeCount l bcid : Int) :=
    maxActivePos_of_dense (hdense bcid)
  obtain ⟨l₁, l₂, hdec, h1, h2, hid⟩ := nodup_findById_decomp hnodup hfind
  subst hdec
  have hsched_mem : sched ∈ l₁ ++ sched :: l₂ := by simp
  have hsp := (mem_activePositions_iff_of_dense (hdense sched.boardColumnId)
    sched.position).mp
    (position_mem_activePositions hsched_mem rfl hact)
  intro c
  rw [List.map_append, List.map_cons]
  have hprim : crossMoveRowApp sid sched bcid
      (maxActivePos (l₁ ++ sched :: l₂) bcid + 1) now sched =
      { sched with
        position := maxActivePos (l₁ ++ sched :: l₂) bcid + 1,
        boardColumnId := bcid,
        updatedAt := some now } := by
    unfold crossMoveRowApp
    rw [if_pos hid]
  rw [hprim,
    map_crossMoveRowApp_eq_shift sid sched bcid _ now l₁ h1,
    map_crossMoveRowApp_eq_shift sid sched bcid _ now l₂ h2]
  unfold denseCol
  rw [activeCount_append, activeCount_cons, activeCount_shiftPositions,
    activeCount_shiftPositions, activePositions_append]
  by_cases hcb : c = bcid
  · subst hcb
    have hindsched : activeInd sched c = 0 := by
      unfold activeInd
      rw [if_neg (fun hC => hne hC.1.symm)]
    have hindprim : activeInd { sched with
        position := maxActivePos (l₁ ++ sched :: l₂) c + 1,
        boardColumnId := c,
        updatedAt := some now } c = 1 := by
      unfold activeInd
      rw [if_pos ⟨rfl, hact⟩]
    rw [hindprim,
      activePositions_cons_active
        { sched with
          position := maxActivePos (l₁ ++ sched :: l₂) c + 1,
          boardColumnId := c,
          updatedAt := some now } c _ rfl hact,
      activePositions_shiftPositions, if_neg hne,
      activePositions_shiftPositions, if_neg hne]
    have horig := hdense c
    unfold denseCol at horig
    rw [activePositions_append,
      activePositions_cons_inactive sched c _ (fun hC => hne hC.1.symm),
      activeCount_append, activeCount_cons, hindsched] at horig
    refine List.Perm.trans List.perm_middle ?_
    have hnp : maxActivePos (l₁ ++ sched :: l₂) c + 1 =
        ((activeCount l₁ c + (0 + activeCount l₂ c) : Nat) : Int) + 1 := by
      rw [hmax, activeCount_append, activeCount_cons, hindsched]
    rw [hnp]
    have hgoalcnt : activeCount l₁ c + (1 + activeCount l₂ c) =
        (activeCount l₁ c + (0 + activeCount l₂ c)) + 1 := by omega
    rw [hgoalcnt]
    exact dense_append_lemma horig
  · have hindprim : activeInd { sched with
        position := maxActivePos (l₁ ++ sched :: l₂) bcid + 1,
        boardColumnId := bcid,
        updatedAt := some now } c = 0 := by
      unfold activeInd
      rw [if_neg (fun hC => hcb hC.1.symm)]
    rw [hindprim,
      activePositions_cons_inactive
        { sched with
          position := maxActivePos (l₁ ++ sched :: l₂) bcid + 1,
          boardColumnId := bcid,
          updatedAt := some now } c _ (fun hC => hcb hC.1.symm)]
    by_cases hcs : c = sched.boardColumnId
    · subst hcs
      rw [activePositions_shiftPositions, if_pos rfl,
        activePositions_shiftPositions, if_pos rfl, ← List.map_append]
      have horig := hdense sched.boardColumnId
      unfold denseCol at horig
      rw [activePositions_append,
        activePositions_cons_active sched sched.boardColumnId _ rfl hact,
        activeCount_append, activeCount_cons] at horig
      have hQ := List.Perm.trans List.perm_middle.symm horig
      have hcnt : activeCount l₁ sched.boardColumnId + (0 +
          activeCount l₂ sched.boardColumnId) =
          (activeCount l₁ sched.boardColumnId +
            (activeInd sched sched.boardColumnId +
              activeCount l₂ sched.boardColumnId)) - 1 := by
        unfold activeInd
        rw [if_pos ⟨rfl, hact⟩]
        omega
      rw [hcnt]
      refine dense_delete_lemma _ (fun q => by simp) hsp.1 ?_ hQ
      rw [activeCount_append, activeCount_cons] at hsp
      exact hsp.2
    · rw [activePositions_shiftPositions, if_neg hcs,
        activePositions_shiftPositions, if_neg hcs]
      have horig := hdense c
      unfold denseCol at horig
      rw [activePositions_append,
        activePositions_cons_inactive sched c _ (fun hC => hcs hC.1.symm),
        activeCount_append, activeCount_cons] at horig
      have hind0' : activeInd sched c = 0 := by
        unfold activeInd
        rw [if_neg (fun hC => hcs hC.1.symm)]
      rw [hind0'] at horig
      exact horig

lemma crossIns_preserves_dense (l : List TwSchedule) (sid : Nat)
    (sched : TwSchedule) (bcid : Nat) (rp : Int) (now : GoTime)
    (hnodup : (l.map (fun r => r.id)).Nodup)
    (hfind : findById l sid = some sched)
    (hact : sched.isDeleted = false)
    (hne : bcid ≠ sched.boardColumnId)
    (hlo : 1 ≤ rp)
    (hwit : ∃ r ∈ l, r.boardColumnId = bcid ∧ r.isDeleted = false ∧
      rp ≤ r.position) :
    (∀ c, denseCol l c) →
    ∀ c, denseCol (l.map (crossMoveRowIns sid sched bcid rp now)) c := by
  intro hdense
  have hhi : rp ≤ (activeCount l bcid : Int) := by
    obtain ⟨r, hrmem, hrb, hrd, hrp⟩ := hwit
    have := (mem_activePositions_iff_of_dense (hdense bcid) r.position).mp
      (position_mem_activePositions hrmem hrb hrd)
    omega
  obtain ⟨l₁, l₂, hdec, h1, h2, hid⟩ := nodup_findById_decomp hnodup hfind
  subst hdec
  have hsched_mem : sched ∈ l₁ ++ sched :: l₂ := by simp
  have hsp := (mem_activePositions_iff_of_dense (hdense sched.boardColumnId)
    sched.position).mp
    (position_mem_activePositions hsched_mem rfl hact)
  intro c
  rw [List.map_append, List.map_cons]
  have hprim : crossMoveRowIns sid sched bcid rp now sched =
      { sched with
        position := rp,
        boardColumnId := bcid,
        updatedAt := some now } := by
    unfold crossMoveRowIns
    rw [if_pos hid]
  rw [hprim,
    map_crossMoveRowIns_eq_shifts sid sched bcid rp now l₁ h1 hne,
    map_crossMoveRowIns_eq_shifts sid sched bcid rp now l₂ h2 hne]
  unfold denseCol
  rw [activeCount_append, activeCount_cons, activeCount_shiftPositions,
    activeCount_shiftPositions, activeCount_shiftPositions,
    activeCount_shiftPositions, activePositions_append]
  by_cases hcb : c = bcid
  · subst hcb
    have hindsched : activeInd sched c = 0 := by
      unfold activeInd
      rw [if_neg (fun hC => hne hC.1.symm)]
    have hindprim : activeInd { sched with
        position := rp,
        boardColumnId := c,
        updatedAt := some now } c = 1 := by
      unfold activeInd
      rw [if_pos ⟨rfl, hact⟩]
    rw [hindprim,
      activePositions_cons_active
        { sched with
          position := rp,
          boardColumnId := c,
          updatedAt := some now } c _ rfl hact,
      activePositions_shiftPositions, if_pos rfl,
      activePositions_shiftPositions, if_neg hne,
      activePositions_shiftPositions, if_pos rfl,
      activePositions_shiftPositions, if_neg hne]
    have horig := hdense c
    unfold denseCol at horig
    rw [activePositions_append,
      activePositions_cons_inactive sched c _ (fun hC => hne hC.1.symm),
      activeCount_append, activeCount_cons, hindsched] at horig
    refine List.Perm.trans List.perm_middle ?_
    rw [← List.map_append]
    have hgoalcnt : activeCount l₁ c + (1 + activeCount l₂ c) =
        (activeCount l₁ c + (0 + activeCount l₂ c)) + 1 := by omega
    rw [hgoalcnt]
    refine dense_insert_lemma _ (fun q => by simp) hlo ?_ horig
    rw [activeCount_append, activeCount_cons, hindsched] at hhi
    exact hhi
  · have hindprim : activeInd { sched with
        position := rp,
        boardColumnId := bcid,
        updatedAt := some now } c = 0 := by
      unfold activeInd
      rw [if_neg (fun hC => hcb hC.1.symm)]
    rw [hindprim,
      activePositions_cons_inactive
        { sched with
          position := rp,
          boardColumnId := bcid,
          updatedAt := some now } c _ (fun hC => hcb hC.1.symm)]
    by_cases hcs : c = sched.boardColumnId
    · subst hcs
      rw [activePositions_shiftPositions, if_neg (fun h => hne h.symm),
        activePositions_shiftPositions, if_pos rfl,
        activePositions_shiftPositions, if_neg (fun h => hne h.symm),
        activePositions_shiftPositions, if_pos rfl, ← List.map_append]
      have horig := hdense sched.boardColumnId
      unfold denseCol at horig
      rw [activePositions_append,
        activePositions_cons_active sched sched.boardColumnId _ rfl hact,
        activeCount_append, activeCount_cons] at horig
      have hQ := List.Perm.trans List.perm_middle.symm horig
      have hcnt : activeCount l₁ sched.boardColumnId + (0 +
          activeCount l₂ sched.boardColumnId) =
          (activeCount l₁ sched.boardColumnId +
            (activeInd sched sched.boardColumnId +
              activeCount l₂ sched.boardColumnId)) - 1 := by
        unfold activeInd
        rw [if_pos ⟨rfl, hact⟩]
        omega
      rw [hcnt]
      refine dense_delete_lemma _ (fun q => by simp) hsp.1 ?_ hQ
      rw [activeCount_append, activeCount_cons] at hsp
      exact hsp.2
    · rw [activePositions_shiftPositions, if_neg hcb,
        activePositions_shiftPositions, if_neg hcs,
        activePositions_shiftPositions, if_neg hcb,
        activePositions_shiftPositions, if_neg hcs]
      have horig := hdense c
      unfold denseCol at horig
      rw [activePositions_append,
        activePositions_cons_inactive sched c _ (fun hC => hcs hC.1.symm),
        activeCount_append, activeCount_cons] at horig
      have hind0' : activeInd sched c = 0 := by
        unfold activeInd
        rw [if_neg (fun hC => hcs hC.1.symm)]
      rw [hind0'] at horig
      exact horig

lemma append_preserves_dense (l : List TwSchedule) (s : TwSchedule)
    (hs_act : s.isDeleted = false)
    (hpos : s.position = (activeCount l s.boardColumnId : Int) + 1)
    (hdense : ∀ c, denseCol l c) :
    ∀ c, denseCol (l ++ [s]) c := by
  intro c
  unfold denseCol
  rw [activeCount_append, activePositions_append]
  by_cases hc : c = s.boardColumnId
  · subst hc
    rw [activePositions_cons_active s s.boardColumnId [] rfl hs_act]
    have hcnt : activeCount [s] s.boardColumnId = 1 := by
      rw [activeCount_cons]
      unfold activeInd
      rw [if_pos ⟨rfl, hs_act⟩]
      rfl
    rw [hcnt]
    have h1 : activePositions ([] : List TwSchedule) s.boardColumnId = [] := rfl
    rw [h1]
    refine List.Perm.trans (List.perm_append_singleton _ _) ?_
    rw [hpos]
    exact dense_append_lemma (hdense s.boardColumnId)
  · rw [activePositions_cons_inactive s c [] (fun hC => hc hC.1.symm)]
    have hcnt : activeCount [s] c = 0 := by
      rw [activeCount_cons]
      unfold activeInd
      rw [if_neg (fun hC => hc hC.1.symm)]
      rfl
    rw [hcnt]
    have h1 : activePositions ([] : List TwSchedule) c = [] := rfl
    rw [h1, List.append_nil]
    have := hdense c
    unfold denseCol at this
    simpa using this

lemma save_touch_preserves_dense (l : List TwSchedule) (sid : Nat)
    (sched : TwSchedule) (now : GoTime)
    (hnodup : (l.map (fun r => r.id)).Nodup)
    (hfind : findById l sid = some sched)
    (hdense : ∀ c, denseCol l c) :
    ∀ c, denseCol (saveById l { sched with updatedAt := some now }) c := by
  obtain ⟨l₁, l₂, hdec, h1, h2, hid⟩ := nodup_findById_decomp hnodup hfind
  subst hdec
  rw [saveById_decomp l₁ l₂ sched { sched with updatedAt := some now }
    (fun x hx h => h1 x hx (h.trans hid))
    (fun x hx h => h2 x hx (h.trans hid)) rfl]
  intro c
  have horig := hdense c
  unfold denseCol at horig ⊢
  rw [activeCount_append, activeCount_cons, activePositions_append] at horig ⊢
  by_cases hc : sched.boardColumnId = c ∧ sched.isDeleted = false
  · rw [activePositions_cons_active sched c _ hc.1 hc.2] at horig
    rw [activePositions_cons_active { sched with updatedAt := some now } c _
      hc.1 hc.2]
    have hind : activeInd { sched with updatedAt := some now } c =
        activeInd sched c := rfl
    rw [hind]
    exact horig
  · rw [activePositions_cons_inactive sched c _ hc] at horig
    rw [activePositions_cons_inactive { sched with updatedAt := some now } c _ hc]
    have hind : activeInd { sched with updatedAt := some now } c =
        activeInd sched c := rfl
    rw [hind]
    exact horig

lemma ids_map_eq (l : List TwSchedule) (f : TwSchedule → TwSchedule)
    (h : ∀ r ∈ l, (f r).id = r.id) :
    (l.map f).map (fun r => r.id) = l.map (fun r => r.id) := by
  rw [List.map_map]
  exact List.map_congr_left (fun r hr => h r hr)

lemma intraMoveRow_id (sid : Nat) (sched : TwSchedule) (rp : Int)
    (now : GoTime) (hid : sched.id = sid) (r : TwSchedule) :
    (intraMoveRow sid sched rp now r).id = r.id := by
  unfold intraMoveRow
  split_ifs with hr
  · rw [hid, hr]
  · rfl
  · rfl
  · rfl

lemma crossMoveRowIns_id (sid : Nat) (sched : TwSchedule) (bcid : Nat)
    (rp : Int) (now : GoTime) (hid : sched.id = sid) (r : TwSchedule) :
    (crossMoveRowIns sid sched bcid rp now r).id = r.id := by
  unfold crossMoveRowIns
  split_ifs with hr
  · rw [hid, hr]
  · rfl
  · rfl
  · rfl

lemma crossMoveRowApp_id (sid : Nat) (sched : TwSchedule) (bcid : Nat)
    (np : Int) (now : GoTime) (hid : sched.id = sid) (r : TwSchedule) :
    (crossMoveRowApp sid sched bcid np now r).id = r.id := by
  unfold crossMoveRowApp
  split_ifs with hr
  · rw [hid, hr]
  · rfl
  · rfl

lemma deleteRow_id (sid : Nat) (sched : TwSchedule) (now : GoTime)
    (hid : sched.id = sid) (r : TwSchedule) :
    (deleteRow sid sched now r).id = r.id := by
  unfold deleteRow
  split_ifs with hr
  · rw [hid, hr]
  · rfl
  · rfl

lemma create_filter_length (l : List TwSchedule) (cb : Nat) :
    (l.filter (fun r => r.boardColumnId == cb && r.isDeleted == false)).length =
      activeCount l cb := by
  unfold activeCount activesIn
  congr 1
  apply List.filter_congr
  intro r _
  cases r.isDeleted <;> simp

lemma updateSchedulePosition_notFound (db : DBState) (sid wuid : Nat)
    (req : TwUpdateSchedulePosition) (now : GoTime)
    (h : findById db.schedules sid = none) :
    updateSchedulePosition db sid wuid req now = .error .notFound := by
  unfold updateSchedulePosition
  rw [h]

lemma deleteSchedule_notFound (db : DBState) (sid wuid : Nat) (now : GoTime)
    (h : findById db.schedules sid = none) :
    deleteSchedule db sid wuid now = .error .notFound := by
  unfold deleteSchedule
  rw [h]

lemma updateSchedulePosition_nocol (db : DBState) (sid wuid : Nat)
    (req : TwUpdateSchedulePosition) (now : GoTime) (sched : TwSchedule)
    (hfind : findById db.schedules sid = some sched)
    (hcol : req.boardColumnId = none) :
    updateSchedulePosition db sid wuid req now =
      .ok ({ schedules := saveById db.schedules
               { sched with updatedAt := some now },
             logs := db.logs ++ [] },
           { sched with updatedAt := some now }) := by
  unfold updateSchedulePosition
  rw [hfind]
  simp only [hcol, applyMoveResult]

lemma WFState_mk {sch : List TwSchedule} {lg : List TwScheduleLog}
    (h1 : (sch.map (fun r => r.id)).Nodup) (h2 : ∀ c, denseCol sch c) :
    WFState ⟨sch, lg⟩ :=
  ⟨h1, h2⟩

lemma applyOp_preserves_WF (db : DBState) (op : Op)
    (hwf : WFState db) (hv : ValidOp db op) : WFState (applyOp db op) := by
  obtain ⟨hnodup, hdense⟩ := hwf
  cases op with
  | create req nextId now endDefault =>
    simp only [applyOp, createSchedule]
    refine WFState_mk ?_ ?_
    · simp only [List.map_append, List.map_cons, List.map_nil]
      rw [List.nodup_append]
      refine ⟨hnodup, List.nodup_singleton _, ?_⟩
      intro a ha hb
      simp only [List.mem_singleton] at hb
      subst hb
      obtain ⟨r, hr, hra⟩ := List.mem_map.mp ha
      exact (hv r hr) hra
    · refine append_preserves_dense db.schedules _ rfl ?_ hdense
      simp only [create_filter_length]
  | move sid wuid req now =>
    cases hfind : findById db.schedules sid with
    | none =>
      have herr := updateSchedulePosition_notFound db sid wuid req now hfind
      simp only [applyOp]
      rw [herr]
      exact ⟨hnodup, hdense⟩
    | some sched =>
      have hid : sched.id = sid := findById_id hfind
      obtain ⟨hact, hrest⟩ := hv sched hfind
      cases hbc : req.boardColumnId with
      | none =>
        have hres := updateSchedulePosition_nocol db sid wuid req now sched
          hfind hbc
        simp only [applyOp]
        rw [hres]
        refine WFState_mk ?_ ?_
        · rw [ids_saveById]
          exact hnodup
        · exact save_touch_preserves_dense db.schedules sid sched now hnodup
            hfind hdense
      | some bcid =>
        obtain ⟨hintra, hcross⟩ := hrest bcid hbc
        by_cases hbeq : bcid = sched.boardColumnId
        · have hcol2 : req.boardColumnId = some sched.boardColumnId := by
            rw [hbc, hbeq]
          have hres := updateSchedulePosition_intra_spec db sid wuid req now
            sched hfind hcol2
          simp only [applyOp]
          rw [hres]
          refine WFState_mk ?_ ?_
          · rw [ids_map_eq _ _ (fun r _ => intraMoveRow_id sid sched
              req.position now hid r)]
            exact hnodup
          · exact intra_move_preserves_dense db.schedules sid sched
              req.position now hnodup hfind hact (hintra hbeq).1
              (hintra hbeq).2 hdense
        · have hres := updateSchedulePosition_cross_spec db sid wuid req now
            sched bcid hfind hbc hbeq
          by_cases hT : (db.schedules.filter (fun r =>
              r.boardColumnId == bcid && decide (req.position ≤ r.position) &&
                !r.isDeleted)).isEmpty = true
          · rw [if_pos hT] at hres
            simp only [applyOp]
            rw [hres]
            refine WFState_mk ?_ ?_
            · rw [ids_map_eq _ _ (fun r _ => crossMoveRowApp_id sid sched bcid
                (maxActivePos db.schedules bcid + 1) now hid r)]
              exact hnodup
            · exact crossApp_preserves_dense db.schedules sid sched bcid now
                hnodup hfind hact hbeq hdense
          · rw [if_neg hT] at hres
            simp only [applyOp]
            rw [hres]
            have hwit : ∃ r ∈ db.schedules, r.boardColumnId = bcid ∧
                r.isDeleted = false ∧ req.position ≤ r.position := by
              have hne_nil : db.schedules.filter (fun r =>
                  r.boardColumnId == bcid &&
                    decide (req.position ≤ r.position) && !r.isDeleted) ≠ [] := by
                intro hcontra
                exact hT (by rw [hcontra]; rfl)
              obtain ⟨r, hr⟩ := List.exists_mem_of_ne_nil _ hne_nil
              have hmem := List.mem_of_mem_filter hr
              have hpred := List.of_mem_filter hr
              simp only [Bool.and_eq_true, beq_iff_eq, Bool.not_eq_true',
                decide_eq_true_eq] at hpred
              exact ⟨r, hmem, hpred.1.1, hpred.2, hpred.1.2⟩
            refine WFState_mk ?_ ?_
            · rw [ids_map_eq _ _ (fun r _ => crossMoveRowIns_id sid sched bcid
                req.position now hid r)]
              exact hnodup
            · exact crossIns_preserves_dense db.schedules sid sched bcid
                req.position now hnodup hfind hact hbeq (hcross hbeq) hwit
                hdense
  | delete sid wuid now =>
    cases hfind : findById db.schedules sid with
    | none =>
      have herr := deleteSchedule_notFound db sid wuid now hfind
      simp only [applyOp]
      rw [herr]
      exact ⟨hnodup, hdense⟩
    | some sched =>
      have hid : sched.id = sid := findById_id hfind
      have hact := hv sched hfind
      have hres := deleteSchedule_spec db sid wuid now sched hfind
      simp only [applyOp]
      rw [hres]
      refine WFState_mk ?_ ?_
      · rw [ids_map_eq _ _ (fun r _ => deleteRow_id sid sched now hid r)]
        exact hnodup
      · exact delete_preserves_dense db.schedules sid sched now hnodup hfind
          hact hdense

lemma seq_preserves_WF (ops : List Op) :
    ∀ db : DBState, WFState db → SeqValid db ops → WFState (runOps db ops) := by
  induction ops with
  | nil => intro db hwf _; exact hwf
  | cons op rest ih =>
    intro db hwf hv
    exact ih (applyOp db op) (applyOp_preserves_WF db op hwf hv.1) hv.2

lemma seqValid_take (ops : List Op) :
    ∀ (db : DBState) (n : Nat), SeqValid db ops → SeqValid db (ops.take n) := by
  induction ops with
  | nil => intro db n _; simp [SeqValid]
  | cons op rest ih =>
    intro db n hv
    cases n with
    | zero => trivial
    | succ m => exact ⟨hv.1, ih (applyOp db op) m hv.2⟩

lemma denseCol_of_not_mem (l : List TwSchedule) (c : Nat)
    (h : ∀ r ∈ l, r.boardColumnId ≠ c) : denseCol l c := by
  have hn : activesIn l c = [] := by
    unfold activesIn
    rw [List.filter_eq_nil]
    intro r hr
    simp [h r hr]
  unfold denseCol activePositions activeCount
  rw [hn]
  exact List.Perm.nil

lemma targets_empty_iff (l : List TwSchedule) (bcid : Nat) (pos : Int) :
    (l.filter (fun r => r.boardColumnId == bcid && decide (pos ≤ r.position) &&
        !r.isDeleted)).isEmpty = true ↔
      ¬ ∃ r ∈ l, r.boardColumnId = bcid ∧ r.isDeleted = false ∧
        pos ≤ r.position := by
  rw [List.isEmpty_iff, List.filter_eq_nil]
  constructor
  · rintro h ⟨r, hr, h1, h2, h3⟩
    exact absurd (by simp [h1, h2, h3]) (h r hr)
  · intro h r hr hp
    simp only [Bool.and_eq_true, beq_iff_eq, Bool.not_eq_true',
      decide_eq_true_eq] at hp
    exact h ⟨r, hr, hp.1.1, hp.2, hp.1.2⟩

/-- C1: starting from a well-formed store, after each step of a finite
sequence of create / move / delete operations the active schedules of every
board column occupy exactly the positions `{1, …, N}`, `N` the column's
active count — no duplicates, no gaps.  Amended: the claim holds only when
each operation meets its validity precondition (`ValidOp`): a create uses a
fresh id, a move or delete targets an active row, an intra-column move
requests a position inside `[1, N]` and a cross-column move a positive
position.  The handlers never validate the range themselves, so an
out-of-range move breaks the invariant (see the counterexample). -/
theorem C1_dense_after_each_valid_operation (db : DBState) (ops : List Op)
    (hwf : WFState db) (hv : SeqValid db ops) :
    ∀ n c, denseCol (runOps db (ops.take n)).schedules c := by
  intro n c
  exact (seq_preserves_WF (ops.take n) db hwf (seqValid_take ops db n hv)).2 c

/-- C1 witness: the empty store is well-formed, the single create of
`exOps` is valid there, and after its first step column 1 is dense. -/
theorem C1_dense_after_each_valid_operation_witness :
    WFState emptyDb ∧ SeqValid emptyDb exOps ∧
      denseCol (runOps emptyDb (exOps.take 1)).schedules 1 := by
  have hwf : WFState emptyDb := ⟨List.nodup_nil, fun _ => List.Perm.nil⟩
  have hv : SeqValid emptyDb exOps := by
    refine ⟨?_, trivial⟩
    intro r hr
    simp [emptyDb] at hr
  exact ⟨hwf, hv, C1_dense_after_each_valid_operation emptyDb exOps hwf hv 1 1⟩

/-- C1 counterexample: from the well-formed one-row store, a single move of
schedule 1 to position 3 inside its own column — a finite operation
sequence restricted to column 1 — leaves the column's active positions at
`[3]` instead of `{1}`: as stated, without the validity precondition, the
claim is false. -/
theorem C1_dense_after_each_valid_operation_counterexample :
    WFState oneRowDb ∧
      ¬ denseCol (runOps oneRowDb
        [Op.move 1 7 { boardColumnId := some 1, position := 3 } t0]).schedules
        1 := by
  constructor
  · refine ⟨by decide, ?_⟩
    intro c
    by_cases hc : c = 1
    · subst hc
      decide
    · refine denseCol_of_not_mem _ _ ?_
      intro r hr
      simp only [oneRowDb, List.mem_singleton] at hr
      subst hr
      intro hbc
      apply hc
      simpa [mkRow] using hbc.symm
  · decide

/-- C2: an intra-column move succeeds and rewrites exactly as claimed: the
moved schedule takes the requested position; when the requested position is
smaller, the active siblings with position in `[new, old - 1]` each gain 1;
when it is larger, those with position in `(old, new]` each lose 1 (both
intervals are `intraMoveRow`'s guards); when it equals the current position
no sibling position changes and no log row is emitted. -/
theorem C2_intra_move_characterisation (db : DBState) (sid wuid : Nat)
    (req : TwUpdateSchedulePosition) (now : GoTime) (sched : TwSchedule)
    (hfind : findById db.schedules sid = some sched)
    (hcol : req.boardColumnId = some sched.boardColumnId)
    (hdense : denseCol db.schedules sched.boardColumnId) :
    ∃ db' s',
      updateSchedulePosition db sid wuid req now = .ok (db', s') ∧
      s'.position = req.position ∧
      db'.schedules = db.schedules.map
        (intraMoveRow sid sched req.position now) ∧
      (req.position = sched.position →
        db'.schedules = saveById db.schedules
          { sched with updatedAt := some now } ∧
        db'.logs = db.logs) := by
  have hid : sched.id = sid := findById_id hfind
  refine ⟨_, _,
    updateSchedulePosition_intra_spec db sid wuid req now sched hfind hcol,
    rfl, rfl, ?_⟩
  intro heq
  constructor
  · unfold saveById
    apply List.map_congr_left
    intro r _
    unfold intraMoveRow
    by_cases hr : r.id = sid
    · rw [if_pos hr, if_pos (by simp [hid, hr]), heq]
    · rw [if_neg hr, if_neg (by rintro ⟨h1, h2, h3, h4⟩; omega),
        if_neg (by rintro ⟨h1, h2, h3, h4⟩; omega),
        if_neg (by simp [hid, hr])]
  · show db.logs ++ checkAndLog sched.id wuid [] "position"
      (toString sched.position) (toString req.position) = db.logs
    rw [heq, checkAndLog_self]
    exact List.append_nil db.logs

/-- C2 witness: in the three-schedule column `[S1:1, S2:2, S3:3]`, moving S3
to position 1 succeeds and yields table-order active positions `[2, 3, 1]`,
i.e. S3 at 1, S1 at 2, S2 at 3. -/
theorem C2_intra_move_characterisation_witness :
    findById exDb.schedules 3 = some (mkRow 3 1 3 false) ∧
    denseCol exDb.schedules 1 ∧
    activePositions (exDb.schedules.map
      (intraMoveRow 3 (mkRow 3 1 3 false) 1 t0)) 1 = [2, 3, 1] ∧
    ∃ db' s',
      updateSchedulePosition exDb 3 9
        { boardColumnId := some 1, position := 1 } t0 = .ok (db', s') ∧
      s'.position = 1 ∧
      db'.schedules = exDb.schedules.map
        (intraMoveRow 3 (mkRow 3 1 3 false) 1 t0) ∧
      ((1 : Int) = (mkRow 3 1 3 false).position →
        db'.schedules = saveById exDb.schedules
          { mkRow 3 1 3 false with updatedAt := some t0 } ∧
        db'.logs = exDb.logs) :=
  ⟨by decide, by decide, by decide,
    C2_intra_move_characterisation exDb 3 9
      { boardColumnId := some 1, position := 1 } t0 (mkRow 3 1 3 false)
      (by decide) (by decide) (by decide)⟩

/-- C3: a cross-column move succeeds and rewrites exactly as claimed: the
schedule's column becomes the target column; active siblings left behind in
the source column past the old position each lose 1 (both `crossMoveRow...`
guards); when some active schedule of the target column sits at or past the
requested position, those rows each gain 1 and the moved schedule takes
exactly the requested position, and when none does the moved schedule is
placed at `max active position + 1` instead of erroring. -/
theorem C3_cross_move_characterisation (db : DBState) (sid wuid : Nat)
    (req : TwUpdateSchedulePosition) (now : GoTime) (sched : TwSchedule)
    (bcid : Nat)
    (hfind : findById db.schedules sid = some sched)
    (hcol : req.boardColumnId = some bcid)
    (hne : bcid ≠ sched.boardColumnId) :
    ∃ db' s',
      updateSchedulePosition db sid wuid req now = .ok (db', s') ∧
      s'.boardColumnId = bcid ∧
      ((∃ r ∈ db.schedules, r.boardColumnId = bcid ∧ r.isDeleted = false ∧
          req.position ≤ r.position) →
        s'.position = req.position ∧
        db'.schedules = db.schedules.map
          (crossMoveRowIns sid sched bcid req.position now)) ∧
      ((¬ ∃ r ∈ db.schedules, r.boardColumnId = bcid ∧ r.isDeleted = false ∧
          req.position ≤ r.position) →
        s'.position = maxActivePos db.schedules bcid + 1 ∧
        db'.schedules = db.schedules.map
          (crossMoveRowApp sid sched bcid
            (maxActivePos db.schedules bcid + 1) now)) := by
  have hspec := updateSchedulePosition_cross_spec db sid wuid req now sched
    bcid hfind hcol hne
  by_cases hT : (db.schedules.filter (fun r => r.boardColumnId == bcid &&
      decide (req.position ≤ r.position) && !r.isDeleted)).isEmpty = true
  · rw [if_pos hT] at hspec
    refine ⟨_, _, hspec, rfl, ?_, ?_⟩
    · intro hex
      exact absurd hex ((targets_empty_iff db.schedules bcid req.position).mp hT)
    · intro _
      exact ⟨rfl, rfl⟩
  · rw [if_neg hT] at hspec
    refine ⟨_, _, hspec, rfl, ?_, ?_⟩
    · intro _
      exact ⟨rfl, rfl⟩
    · intro hnex
      exact absurd ((targets_empty_iff db.schedules bcid req.position).mpr hnex) hT

/-- C3 witness: moving the only schedule of column 1 into column 2 at
position 1, where column 2 already holds an active schedule at position 1,
hits the insertion branch of the characterisation. -/
theorem C3_cross_move_characterisation_witness :
    findById twoColDb.schedules 1 = some (mkRow 1 1 1 false) ∧
    (2 : Nat) ≠ (mkRow 1 1 1 false).boardColumnId ∧
    ∃ db' s',
      updateSchedulePosition twoColDb 1 9
        { boardColumnId := some 2, position := 1 } t0 = .ok (db', s') ∧
      s'.boardColumnId = 2 ∧
      ((∃ r ∈ twoColDb.schedules, r.boardColumnId = 2 ∧ r.isDeleted = false ∧
          (1 : Int) ≤ r.position) →
        s'.position = 1 ∧
        db'.schedules = twoColDb.schedules.map
          (crossMoveRowIns 1 (mkRow 1 1 1 false) 2 1 t0)) ∧
      ((¬ ∃ r ∈ twoColDb.schedules, r.boardColumnId = 2 ∧ r.isDeleted = false ∧
          (1 : Int) ≤ r.position) →
        s'.position = maxActivePos twoColDb.schedules 2 + 1 ∧
        db'.schedules = twoColDb.schedules.map
          (crossMoveRowApp 1 (mkRow 1 1 1 false) 2
            (maxActivePos twoColDb.schedules 2 + 1) t0)) :=
  ⟨by decide, by decide,
    C3_cross_move_characterisation twoColDb 1 9
      { boardColumnId := some 2, position := 1 } t0 (mkRow 1 1 1 false) 2
      (by decide) (by decide) (by decide)⟩

/-- C4: deleting an existing schedule succeeds; the row is marked deleted
with `deleted_at` set while its own position keeps its pre-delete value, and
every active sibling of the same column past that position loses 1
(`deleteRow`'s guard). -/
theorem C4_delete_characterisation (db : DBState) (sid wuid : Nat)
    (now : GoTime) (sched : TwSchedule)
    (hfind : findById db.schedules sid = some sched) :
    ∃ db',
      deleteSchedule db sid wuid now = .ok db' ∧
      db'.schedules = db.schedules.map (deleteRow sid sched now) ∧
      deleteRow sid sched now sched =
        { sched with isDeleted := true, updatedAt := some now,
                     deletedAt := some now } ∧
      (deleteRow sid sched now sched).position = sched.position ∧
      (deleteRow sid sched now sched).isDeleted = true ∧
      (deleteRow sid sched now sched).deletedAt = some now := by
  have hid : sched.id = sid := findById_id hfind
  have hrow : deleteRow sid sched now sched =
      { sched with isDeleted := true, updatedAt := some now,
                   deletedAt := some now } := by
    unfold deleteRow
    rw [if_pos hid]
  exact ⟨_, deleteSchedule_spec db sid wuid now sched hfind, rfl, hrow,
    by rw [hrow], by rw [hrow], by rw [hrow]⟩

/-- C4 witness: deleting S2 from `[S1:1, S2:2, S3:3]` leaves S1 at 1, S3 at
2, and S2 inactive still holding position 2. -/
theorem C4_delete_characterisation_witness :
    findById exDb.schedules 2 = some (mkRow 2 1 2 false) ∧
    activePositions (exDb.schedules.map
      (deleteRow 2 (mkRow 2 1 2 false) t0)) 1 = [1, 2] ∧
    (exDb.schedules.map (deleteRow 2 (mkRow 2 1 2 false) t0)).map
      (fun r => (r.position, r.isDeleted)) =
      [(1, false), (2, true), (2, false)] ∧
    ∃ db',
      deleteSchedule exDb 2 9 t0 = .ok db' ∧
      db'.schedules = exDb.schedules.map (deleteRow 2 (mkRow 2 1 2 false) t0) ∧
      deleteRow 2 (mkRow 2 1 2 false) t0 (mkRow 2 1 2 false) =
        { mkRow 2 1 2 false with isDeleted := true, updatedAt := some t0,
                                 deletedAt := some t0 } ∧
      (deleteRow 2 (mkRow 2 1 2 false) t0 (mkRow 2 1 2 false)).position =
        (mkRow 2 1 2 false).position ∧
      (deleteRow 2 (mkRow 2 1 2 false) t0 (mkRow 2 1 2 false)).isDeleted =
        true ∧
      (deleteRow 2 (mkRow 2 1 2 false) t0 (mkRow 2 1 2 false)).deletedAt =
        some t0 :=
  ⟨by decide, by decide, by decide,
    C4_delete_characterisation exDb 2 9 t0 (mkRow 2 1 2 false) (by decide)⟩

/-- C5: amended — `UpdateSchedulePosition` performs no range validation: an
intra-column move whose requested position lies outside `[1, N]` (`N` the
column's active count) does not fail with an InvalidArgument error; the call
succeeds and sets the schedule's position to the requested value verbatim.
Only an unresolved id makes the handler fail (404). -/
theorem C5_out_of_range_move_succeeds (db : DBState) (sid wuid : Nat)
    (req : TwUpdateSchedulePosition) (now : GoTime) (sched : TwSchedule)
    (hfind : findById db.schedules sid = some sched)
    (hcol : req.boardColumnId = some sched.boardColumnId)
    (hout : req.position < 1 ∨
      (activeCount db.schedules sched.boardColumnId : Int) < req.position) :
    ∃ db' s',
      updateSchedulePosition db sid wuid req now = .ok (db', s') ∧
      s'.position = req.position :=
  ⟨_, _, updateSchedulePosition_intra_spec db sid wuid req now sched hfind hcol,
    rfl⟩

/-- C5 witness: column 1 holds one active schedule, so position 5 is out of
range, yet the move succeeds and repositions the schedule to 5. -/
theorem C5_out_of_range_move_succeeds_witness :
    findById oneRowDb.schedules 1 = some (mkRow 1 1 1 false) ∧
    ((5 : Int) < 1 ∨
      (activeCount oneRowDb.schedules (mkRow 1 1 1 false).boardColumnId : Int)
        < 5) ∧
    ∃ db' s',
      updateSchedulePosition oneRowDb 1 7
        { boardColumnId := some 1, position := 5 } t0 = .ok (db', s') ∧
      s'.position = 5 :=
  ⟨by decide, by decide,
    C5_out_of_range_move_succeeds oneRowDb 1 7
      { boardColumnId := some 1, position := 5 } t0 (mkRow 1 1 1 false)
      (by decide) (by decide) (by decide)⟩

/-- C5 counterexample: with `N = 1` active schedule in column 1 the
requested position 5 is outside `[1, N]`, yet the handler returns `ok` and
the position becomes 5 — the claimed InvalidArgument failure and the absence
of a position change both fail. -/
theorem C5_out_of_range_move_succeeds_counterexample :
    activeCount oneRowDb.schedules 1 = 1 ∧
    moveResultPos (updateSchedulePosition oneRowDb 1 7
      { boardColumnId := some 1, position := 5 } t0) = some 5 :=
  ⟨rfl, rfl⟩

/-- C6 (code bug): deleting schedule 1 from `[S1:1, S2:2, S3:3]` while the
store fails on the second shifted sibling leaves the primary delete and the
first sibling shift in place: the re-read state differs from the pre-call
state and column 1's active positions are `[1, 3]` — a gap — because the
primary save and each sibling save are independent statements with no
enclosing transaction. -/
theorem C6_delete_mid_batch_failure_partial_state :
    deleteScheduleFaulty exDb 1 7 t0 1 ≠ exDb ∧
    activePositions (deleteScheduleFaulty exDb 1 7 t0 1).schedules 1 =
      [1, 3] ∧
    ¬ denseCol (deleteScheduleFaulty exDb 1 7 t0 1).schedules 1 :=
  ⟨by decide, by decide, by decide⟩

/-- C7: amended — `UpdateSchedule` emits exactly the log rows of
`updateLogs`: one row per *supplied* field whose comparison string differs,
where plain fields compare old and new values, `all_day` compares
`FormatBool` renderings, and the timestamp fields compare the rendered
stored value against the *raw* request string (so a supplied timestamp can
log without the stored value changing); unsupplied fields log nothing.  In
particular an update supplying only a new title and a new status produces
exactly the two rows `"title"` and `"status"`. -/
theorem C7_update_log_rows (db : DBState) (sid wuid : Nat)
    (req : TwUpdateScheduleRequest) (now : GoTime) (sched : TwSchedule)
    (hfind : findById db.schedules sid = some sched) :
    ∃ db' s',
      updateSchedule db sid wuid req now = .ok (db', s') ∧
      db'.logs = db.logs ++ updateLogs sched req wuid ∧
      (∀ t st : String, req.title = some t → req.status = some st →
        sched.title ≠ t → sched.status ≠ st →
        req.description = none → req.startTime = none → req.endTime = none →
        req.location = none → req.allDay = none → req.visibility = none →
        req.extraData = none → req.recurrencePattern = none →
        req.priority = none → req.videoTranscript = none →
        db'.logs = db.logs ++
          [{ scheduleId := sched.id, workspaceUserId := wuid,
             action := "update schedule", fieldChanged := "title",
             oldValue := sched.title, newValue := t },
           { scheduleId := sched.id, workspaceUserId := wuid,
             action := "update schedule", fieldChanged := "status",
             oldValue := sched.status, newValue := st }]) := by
  refine ⟨_, _, updateSchedule_spec db sid wuid req now sched hfind, rfl, ?_⟩
  intro t st ht hst hnet hnes h1 h2 h3 h4 h5 h6 h7 h8 h9 h10
  simp only [updateLogs, strLogDelta, timeLogDelta, boolLogDelta, logDelta,
    ht, hst, h1, h2, h3, h4, h5, h6, h7, h8, h9, h10]
  rw [if_pos hnet, if_pos hnes]
  simp

/-- C7 witness: updating only title (`"" → "a"`) and status
(`"not yet" → "done"`) of the one-row store produces exactly the two log
rows `"title"` and `"status"`. -/
theorem C7_update_log_rows_witness :
    findById oneRowDb.schedules 1 = some (mkRow 1 1 1 false) ∧
    updLogsOf (updateSchedule oneRowDb 1 7
      { title := some "a", status := some "done" } t0) =
      [{ scheduleId := 1, workspaceUserId := 7, action := "update schedule",
         fieldChanged := "title", oldValue := "", newValue := "a" },
       { scheduleId := 1, workspaceUserId := 7, action := "update schedule",
         fieldChanged := "status", oldValue := "not yet",
         newValue := "done" }] := by
  obtain ⟨db', s', hok, hlogs, hinst⟩ :=
    C7_update_log_rows oneRowDb 1 7
      { title := some "a", status := some "done" } t0 (mkRow 1 1 1 false)
      (by decide)
  have hfin := hinst "a" "done" rfl rfl (by decide) (by decide) rfl rfl rfl
    rfl rfl rfl rfl rfl rfl rfl
  refine ⟨by decide, ?_⟩
  rw [hok]
  show db'.logs = _
  rw [hfin]
  rfl

/-- C7 counterexample: supplying `start_time` as the ISO rendering of the
value already stored leaves the stored value unchanged, yet one
`"start_time"` log row is emitted, because the handler compares the
rendered old value against the raw request string: the claim's "no row is
emitted for any unchanged field" is false as stated. -/
theorem C7_update_log_rows_counterexample :
    convertDateFormat "2024-01-02T03:04:05Z" = some t0 ∧
    (updSchedOf (updateSchedule timedDb 1 7
      { startTime := some "2024-01-02T03:04:05Z" } t0)).map
      (fun s => s.startTime) = some (some t0) ∧
    updLogsOf (updateSchedule timedDb 1 7
      { startTime := some "2024-01-02T03:04:05Z" } t0) =
      [{ scheduleId := 1, workspaceUserId := 7, action := "update schedule",
         fieldChanged := "start_time",
         oldValue := "2024-01-02 03:04:05 +0000 UTC",
         newValue := "2024-01-02T03:04:05Z" }] :=
  ⟨rfl, rfl, rfl⟩

/-- C8: amended — `UpdateSchedule` leaves every attribute outside the patch
unchanged (position, board column, id, workspace, deletion state, creation
time, and every unsupplied patchable field) and refreshes `updated_at` —
except that `created_by` is unconditionally overwritten with the acting
workspace user (source line 513), patch or no patch. -/
theorem C8_update_frame (db : DBState) (sid wuid : Nat)
    (req : TwUpdateScheduleRequest) (now : GoTime) (sched : TwSchedule)
    (hfind : findById db.schedules sid = some sched) :
    ∃ db' s',
      updateSchedule db sid wuid req now = .ok (db', s') ∧
      s'.position = sched.position ∧
      s'.boardColumnId = sched.boardColumnId ∧
      s'.id = sched.id ∧
      s'.workspaceId = sched.workspaceId ∧
      s'.isDeleted = sched.isDeleted ∧
      s'.deletedAt = sched.deletedAt ∧
      s'.createdAt = sched.createdAt ∧
      s'.updatedAt = some now ∧
      s'.createdBy = wuid ∧
      (req.title = none → s'.title = sched.title) ∧
      (req.description = none → s'.description = sched.description) ∧
      (req.startTime = none → s'.startTime = sched.startTime) ∧
      (req.endTime = none → s'.endTime = sched.endTime) ∧
      (req.location = none → s'.location = sched.location) ∧
      (req.status = none → s'.status = sched.status) ∧
      (req.allDay = none → s'.allDay = sched.allDay) ∧
      (req.visibility = none → s'.visibility = sched.visibility) ∧
      (req.extraData = none → s'.extraData = sched.extraData) ∧
      (req.recurrencePattern = none →
        s'.recurrencePattern = sched.recurrencePattern) ∧
      (req.priority = none → s'.priority = sched.priority) ∧
      (req.videoTranscript = none →
        s'.videoTranscript = sched.videoTranscript) := by
  refine ⟨_, _, updateSchedule_spec db sid wuid req now sched hfind,
    rfl, rfl, rfl, rfl, rfl, rfl, rfl, rfl, rfl,
    ?_, ?_, ?_, ?_, ?_, ?_, ?_, ?_, ?_, ?_, ?_, ?_⟩
  all_goals intro h
  all_goals simp [applyPatch, newTimeField, h]

/-- C8 witness: an empty patch applied by user 7 keeps position, column,
title and status of the stored row. -/
theorem C8_update_frame_witness :
    findById oneRowDb.schedules 1 = some (mkRow 1 1 1 false) ∧
    (updSchedOf (updateSchedule oneRowDb 1 7 {} t0)).map
      (fun s => (s.position, s.boardColumnId, s.title, s.status)) =
      some (1, 1, "", "not yet") := by
  obtain ⟨db', s', hok, hpos, hbc, hid2, hws, hdel, hda, hca, hua, hcb, ht,
    hd, hsta, het, hl, hs, ha, hv, he, hr, hp, hvt⟩ :=
    C8_update_frame oneRowDb 1 7 {} t0 (mkRow 1 1 1 false) (by decide)
  refine ⟨by decide, ?_⟩
  rw [hok]
  show some (s'.position, s'.boardColumnId, s'.title, s'.status) = _
  rw [hpos, hbc, ht rfl, hs rfl]
  rfl

/-- C8 counterexample: the stored creator is user 42, the empty patch is
applied by user 7, and the saved row's `created_by` is 7, not 42 — an
attribute outside the patch was modified. -/
theorem C8_update_frame_counterexample :
    (mkRow 1 1 1 false).createdBy = 42 ∧
    (updSchedOf (updateSchedule oneRowDb 1 7 {} t0)).map
      (fun s => s.createdBy) = some 7 :=
  ⟨rfl, rfl⟩

/-- C9: amended — an unparsable `start_time` or `end_time` string in an
update patch is silently dropped: the stored timestamp keeps its prior value
for that field and no error is surfaced (the call still returns `ok`), but —
contrary to the claim — a log row for that field *is* emitted whenever the
rendered stored value differs from the raw request string, since the handler
logs before parsing and compares against the raw string. -/
theorem C9_unparsable_timestamp (db : DBState) (sid wuid : Nat)
    (req : TwUpdateScheduleRequest) (now : GoTime) (sched : TwSchedule)
    (hfind : findById db.schedules sid = some sched) :
    ∃ db' s',
      updateSchedule db sid wuid req now = .ok (db', s') ∧
      db'.logs = db.logs ++ updateLogs sched req wuid ∧
      (∀ v : String, req.startTime = some v → convertDateFormat v = none →
        s'.startTime = sched.startTime ∧
        (renderOptTime sched.startTime ≠ v →
          { scheduleId := sched.id, workspaceUserId := wuid,
            action := "update schedule", fieldChanged := "start_time",
            oldValue := renderOptTime sched.startTime, newValue := v } ∈
            db'.logs)) ∧
      (∀ v : String, req.endTime = some v → convertDateFormat v = none →
        s'.endTime = sched.endTime ∧
        (renderOptTime sched.endTime ≠ v →
          { scheduleId := sched.id, workspaceUserId := wuid,
            action := "update schedule", fieldChanged := "end_time",
            oldValue := renderOptTime sched.endTime, newValue := v } ∈
            db'.logs)) := by
  refine ⟨_, _, updateSchedule_spec db sid wuid req now sched hfind, rfl,
    ?_, ?_⟩
  · intro v hsup hbad
    refine ⟨?_, ?_⟩
    · show newTimeField sched.startTime req.startTime = sched.startTime
      rw [hsup]
      unfold newTimeField
      simp only [hbad]
    · intro hne
      show _ ∈ db.logs ++ updateLogs sched req wuid
      refine List.mem_append_right _ ?_
      have hrow :
          ({ scheduleId := sched.id, workspaceUserId := wuid,
             action := "update schedule", fieldChanged := "start_time",
             oldValue := renderOptTime sched.startTime, newValue := v } :
            TwScheduleLog) ∈
          timeLogDelta sched.id wuid "start_time" sched.startTime
            req.startTime := by
        rw [hsup]
        simp only [timeLogDelta, logDelta]
        rw [if_pos hne]
        exact List.mem_singleton_self _
      unfold updateLogs
      simp only [List.append_assoc]
      exact List.mem_append_right _ (List.mem_append_right _
        (List.mem_append_left _ hrow))
  · intro v hsup hbad
    refine ⟨?_, ?_⟩
    · show newTimeField sched.endTime req.endTime = sched.endTime
      rw [hsup]
      unfold newTimeField
      simp only [hbad]
    · intro hne
      show _ ∈ db.logs ++ updateLogs sched req wuid
      refine List.mem_append_right _ ?_
      have hrow :
          ({ scheduleId := sched.id, workspaceUserId := wuid,
             action := "update schedule", fieldChanged := "end_time",
             oldValue := renderOptTime sched.endTime, newValue := v } :
            TwScheduleLog) ∈
          timeLogDelta sched.id wuid "end_time" sched.endTime
            req.endTime := by
        rw [hsup]
        simp only [timeLogDelta, logDelta]
        rw [if_pos hne]
        exact List.mem_singleton_self _
      unfold updateLogs
      simp only [List.append_assoc]
      exact List.mem_append_right _ (List.mem_append_right _
        (List.mem_append_right _ (List.mem_append_left _ hrow)))

/-- C9 witness: patching `start_time` with the unparsable string
`"garbage"` and `end_time` with `"2024-13-01T00:00:00Z"` (month 13, a range
error) on a schedule whose start time is `t0` and end time unset keeps both
stored values, returns `ok`, and emits one row per field comparing the
rendered old value against the raw string. -/
theorem C9_unparsable_timestamp_witness :
    convertDateFormat "garbage" = none ∧
    convertDateFormat "2024-13-01T00:00:00Z" = none ∧
    (updSchedOf (updateSchedule timedDb 1 7
      { startTime := some "garbage",
        endTime := some "2024-13-01T00:00:00Z" } t0)).map
      (fun s => (s.startTime, s.endTime)) = some (some t0, none) ∧
    { scheduleId := 1, workspaceUserId := 7, action := "update schedule",
      fieldChanged := "start_time",
      oldValue := "2024-01-02 03:04:05 +0000 UTC", newValue := "garbage" } ∈
      updLogsOf (updateSchedule timedDb 1 7
        { startTime := some "garbage",
          endTime := some "2024-13-01T00:00:00Z" } t0) ∧
    { scheduleId := 1, workspaceUserId := 7, action := "update schedule",
      fieldChanged := "end_time", oldValue := "",
      newValue := "2024-13-01T00:00:00Z" } ∈
      updLogsOf (updateSchedule timedDb 1 7
        { startTime := some "garbage",
          endTime := some "2024-13-01T00:00:00Z" } t0) := by
  obtain ⟨db', s', hok, hlogs, hstart, hend⟩ :=
    C9_unparsable_timestamp timedDb 1 7
      { startTime := some "garbage", endTime := some "2024-13-01T00:00:00Z" }
      t0 { mkRow 1 1 1 false with startTime := some t0 } (by decide)
  obtain ⟨hskeep, hsmem⟩ := hstart "garbage" rfl (by decide)
  obtain ⟨hekeep, hemem⟩ := hend "2024-13-01T00:00:00Z" rfl (by decide)
  refine ⟨by decide, by decide, ?_, ?_, ?_⟩
  · rw [hok]
    show some (s'.startTime, s'.endTime) = _
    rw [hskeep, hekeep]
    rfl
  · have hin := hsmem (by decide)
    rw [hok]
    show _ ∈ db'.logs
    exact hin
  · have hin := hemem (by decide)
    rw [hok]
    show _ ∈ db'.logs
    exact hin

/-- C9 counterexample: the unparsable patch string `"garbage"` leaves the
(empty) stored start time unchanged and surfaces no error, yet one
`"start_time"` log row is emitted — the claim's "no log entry is emitted for
that field" is false as stated. -/
theorem C9_unparsable_timestamp_counterexample :
    convertDateFormat "garbage" = none ∧
    (updSchedOf (updateSchedule oneRowDb 1 7
      { startTime := some "garbage" } t0)).map (fun s => s.startTime) =
      some none ∧
    updLogsOf (updateSchedule oneRowDb 1 7
      { startTime := some "garbage" } t0) =
      [{ scheduleId := 1, workspaceUserId := 7, action := "update schedule",
         fieldChanged := "start_time", oldValue := "",
         newValue := "garbage" }] :=
  ⟨rfl, rfl, rfl⟩

/-- C10: amended — the *internal* column query (`getSchedulesByBoardColumn`,
used by the board endpoints) returns exactly the active schedules of the
requested column and workspace, ordered ascending by position; the exported
single-column endpoint `GetSchedulesByBoardColumn` instead returns every
row of the column — deleted rows included — in table order, with no
ordering clause (see the counterexample). -/
theorem C10_list_by_column (db : DBState) (c w : Nat) :
    (∀ r, r ∈ getSchedulesByBoardColumn db c w ↔
      r ∈ db.schedules ∧ r.boardColumnId = c ∧ r.workspaceId = w ∧
        r.isDeleted = false) ∧
    (getSchedulesByBoardColumn db c w).Pairwise
      (fun a b => a.position ≤ b.position) := by
  constructor
  · intro r
    unfold getSchedulesByBoardColumn
    rw [List.Perm.mem_iff (sortByPos_perm _), List.mem_filter]
    simp [Bool.and_eq_true, beq_iff_eq, and_assoc]
  · exact sortByPos_pairwise _

/-- C10 counterexample: in a column holding an active schedule at position 2
ahead of a deleted one at position 1, the exported endpoint returns both
rows in table order: a deleted schedule is included and the positions come
back descending — the claim is false of the exported list endpoint. -/
theorem C10_list_by_column_counterexample :
    GetSchedulesByBoardColumn mixedDb 1 =
      [mkRow 1 1 2 false, mkRow 2 1 1 true] ∧
    (mkRow 2 1 1 true).isDeleted = true ∧
    (mkRow 1 1 2 false).position = 2 ∧
    (mkRow 2 1 1 true).position = 1 :=
  ⟨rfl, rfl, rfl, rfl⟩
